import Mathlib

/-!
Verification development for the legal-hierarchy parsing core of the
doc-layout-pipeline repository (`src/object_parsing/hierarchy_parser.py`).

The Python source is shallowly embedded: every regular expression of the
source is hand-translated into an executable character-level matcher with
the same backtracking semantics (greedy character-class runs, ordered
alternation, optional groups tried with-then-without), strings are lists of
Unicode scalar values (Python `len`/slicing on `str` counts code points,
exactly as `List Char` does), and the mutable node tree of the builder is
represented as an arena (`List HNode`) with children stored as arena
indices, so that the aliased in-place mutations of the Python code become
functional updates at an index.
-/

namespace HierarchyParser

/-! ## Character classes and string utilities -/

/-- Python `\s` (the whitespace characters that can occur in the parsed text). -/
def isWS (c : Char) : Bool :=
  c = ' ' || c = '\t' || c = '\n' || c = '\r' || c = '\x0b' || c = '\x0c'

/-- `\d` -/
def isDigitCh (c : Char) : Bool := '0' ≤ c && c ≤ '9'

/-- `[가-힣]` -/
def isHangulCh (c : Char) : Bool := '가' ≤ c && c ≤ '힣'

/-- `\s*` : drop a maximal whitespace run. -/
def skipWS (cs : List Char) : List Char := cs.dropWhile isWS

/-- Numeric value of a digit run. -/
def digitsVal (ds : List Char) : Nat :=
  ds.foldl (fun a c => a * 10 + (c.toNat - '0'.toNat)) 0

/-- `(\d+)` : a maximal nonempty digit run, returned raw together with its value. -/
def readDigits (cs : List Char) : Option (List Char × Nat × List Char) :=
  let ds := cs.takeWhile isDigitCh
  if ds.isEmpty then none
  else some (ds, digitsVal ds, cs.dropWhile isDigitCh)

/-- Python `str.strip()`. -/
def trimCh (cs : List Char) : List Char :=
  ((cs.dropWhile isWS).reverse.dropWhile isWS).reverse

/-- Does `cs` start with `p`? -/
def startsWithCh : List Char → List Char → Bool
  | _, [] => true
  | [], _ :: _ => false
  | c :: cs, d :: ds => c = d && startsWithCh cs ds

/-- Python `needle in hay` (substring containment). -/
def containsSub (hay needle : List Char) : Bool :=
  match hay with
  | [] => needle.isEmpty
  | c :: t => startsWithCh (c :: t) needle || containsSub t needle

/-- Auxiliary for `replaceAll` (nonempty pattern `p0 :: ps`). The `Nat`
argument is recursion fuel: every step consumes at least one character, so
starting it at the list length makes the fuel-exhausted branch unreachable
(structural recursion lets the kernel evaluate the function). -/
def replaceAllGo (p0 : Char) (ps repl : List Char) : Nat → List Char → List Char
  | _, [] => []
  | 0, cs => cs
  | Nat.succ fuel, c :: t =>
    if c = p0 && startsWithCh t ps then
      repl ++ replaceAllGo p0 ps repl fuel (t.drop ps.length)
    else
      c :: replaceAllGo p0 ps repl fuel t

/-- Python `str.replace` (all non-overlapping occurrences, left to right).
The source only calls it with a nonempty pattern. -/
def replaceAll (pat repl cs : List Char) : List Char :=
  match pat with
  | [] => cs
  | p0 :: ps => replaceAllGo p0 ps repl cs.length cs

/-! ## Reference data class -/

/-- Mirrors the `Reference` dataclass of the source. -/
structure Reference where
  ref_type : String
  source_id : String
  target_law : Option String := none
  target_jo : Option Nat := none
  target_jo_branch : Option Nat := none
  target_hang : Option Nat := none
  target_ho : Option Nat := none
  target_mok : Option String := none
  raw_text : String := ""
  resolved_id : Option String := none
deriving DecidableEq, Repr

/-! ## Regex building blocks shared by the extraction patterns -/

/-- `제\s*(\d+)\s*조` anchored at the head; yields the article number. -/
def parseJeNJo (cs : List Char) : Option (Nat × List Char) :=
  match cs with
  | '제' :: r1 =>
    match readDigits (skipWS r1) with
    | some (_, n, r2) =>
      match skipWS r2 with
      | '조' :: r3 => some (n, r3)
      | _ => none
    | none => none
  | _ => none

/-- `(?:의\s*(\d+))?` anchored at the head (greedy; on failure nothing is consumed). -/
def parseUiN (cs : List Char) : Option Nat × List Char :=
  match cs with
  | '의' :: r1 =>
    match readDigits (skipWS r1) with
    | some (_, n, r2) => (some n, r2)
    | none => (none, cs)
  | _ => (none, cs)

/-- `(?:제?\s*(\d+)\s*U)?` for a unit character `U` (항 or 호): the optional
leading `제` is tried greedily and dropped on backtracking; on overall failure
nothing is consumed. -/
def parseOptNumUnit (unit : Char) (cs : List Char) : Option Nat × List Char :=
  let attempt : List Char → Option (Nat × List Char) := fun s =>
    match readDigits (skipWS s) with
    | some (_, n, r2) =>
      (match skipWS r2 with
       | u :: r3 => if u = unit then some (n, r3) else none
       | [] => none)
    | none => none
  match cs with
  | '제' :: r1 =>
    (match attempt r1 with
     | some (n, r) => (some n, r)
     | none =>
       match attempt cs with
       | some (n, r) => (some n, r)
       | none => (none, cs))
  | _ =>
    match attempt cs with
    | some (n, r) => (some n, r)
    | none => (none, cs)

def isOpenParen (c : Char) : Bool := c = '(' || c = '[' || c = '（'
def isCloseParen (c : Char) : Bool := c = ')' || c = ']' || c = '）'

/-- `(?:[(\[（]([^)\]）]*)[)\]）])?` : optional parenthesized group with a
required closer; on failure nothing is consumed. -/
def parseOptParen (cs : List Char) : Option (List Char) × List Char :=
  match cs with
  | c :: r1 =>
    if isOpenParen c then
      let inner := r1.takeWhile (fun d => !isCloseParen d)
      match r1.dropWhile (fun d => !isCloseParen d) with
      | d :: r2 => if isCloseParen d then (some inner, r2) else (none, cs)
      | [] => (none, cs)
    else (none, cs)
  | [] => (none, cs)

def mokChars : List Char :=
  ['가', '나', '다', '라', '마', '바', '사', '아', '자', '차', '카', '타', '파', '하']

/-- `(?:([가나다라마바사아자차카타파하])\s*목)?` -/
def parseOptMok (cs : List Char) : Option Char × List Char :=
  match cs with
  | c :: r1 =>
    if mokChars.contains c then
      match skipWS r1 with
      | '목' :: r2 => (some c, r2)
      | _ => (none, cs)
    else (none, cs)
  | [] => (none, cs)

/-! ## External / internal reference patterns -/

/-- Targets captured by the tail `제\s*(\d+)\s*조(?:의\s*(\d+))?\s*(?:제?\s*(\d+)\s*항)?(?:제?\s*(\d+)\s*호)?`
of the external pattern. -/
structure JoTail where
  jo : Nat
  branch : Option Nat := none
  hang : Option Nat := none
  ho : Option Nat := none
deriving DecidableEq, Repr

/-- `\s*제\s*(\d+)\s*조(?:의\s*(\d+))?\s*(?:제?\s*(\d+)\s*항)?(?:제?\s*(\d+)\s*호)?`
(the part of `re_external` after the law-name group). -/
def parseExtTail (cs : List Char) : Option (JoTail × List Char) :=
  match parseJeNJo (skipWS cs) with
  | none => none
  | some (jo, r1) =>
    let (br, r2) := parseUiN r1
    let r3 := skipWS r2
    let (hg, r4) := parseOptNumUnit '항' r3
    let (ho, r5) := parseOptNumUnit '호' r4
    some ({ jo := jo, branch := br, hang := hg, ho := ho }, r5)

structure ExtMatch where
  law : List Char
  tail : JoTail
deriving DecidableEq, Repr

def lawSuffixes : List (List Char) := [['법'], ['령'], ['규', '정'], ['규', '칙']]

/-- Try the suffix alternatives `법|령|규정|규칙` at split point `l`, continuing
with the rest of the external pattern (full regex backtracking into the
continuation). -/
def extTrySuffixes (cs : List Char) (l : Nat) : List (List Char) → Option (ExtMatch × List Char)
  | [] => none
  | b :: bs =>
    if startsWithCh (cs.drop l) b then
      match parseExtTail (cs.drop (l + b.length)) with
      | some (t, rest) => some ({ law := cs.take (l + b.length), tail := t }, rest)
      | none => extTrySuffixes cs l bs
    else extTrySuffixes cs l bs

/-- Backtrack the greedy `[가-힣]+` from split length `l` down to 1. -/
def extFallbackGo (cs : List Char) : Nat → Option (ExtMatch × List Char)
  | 0 => none
  | Nat.succ k =>
    match extTrySuffixes cs (Nat.succ k) lawSuffixes with
    | some r => some r
    | none => extFallbackGo cs k

/-- The fallback external pattern
`([가-힣]+(?:법|령|규정|규칙))\s*제\s*(\d+)\s*조(?:의\s*(\d+))?\s*(?:제?\s*(\d+)\s*항)?(?:제?\s*(\d+)\s*호)?`
anchored at the head. -/
def matchExtFallbackAt (cs : List Char) : Option (ExtMatch × List Char) :=
  extFallbackGo cs (cs.takeWhile isHangulCh).length

/-- The harvested-laws external pattern `({law1|law2|...})\s*제\s*(\d+)\s*조...`:
each (escaped, literal) alternative is tried in the given order, with full
backtracking into the continuation. -/
def extLawsGo (cs : List Char) : List (List Char) → Option (ExtMatch × List Char)
  | [] => none
  | l :: ls =>
    if startsWithCh cs l then
      match parseExtTail (cs.drop l.length) with
      | some (t, rest) => some ({ law := l, tail := t }, rest)
      | none => extLawsGo cs ls
    else extLawsGo cs ls

/-- `re_external` anchored at the head: the alternation over the harvested law
names when that set is nonempty, the generic fallback pattern otherwise
(`ReferenceExtractor.__init__`). -/
def matchExternalAt (laws : List (List Char)) (cs : List Char) : Option (ExtMatch × List Char) :=
  match laws with
  | [] => matchExtFallbackAt cs
  | _ :: _ => extLawsGo cs laws

/-- Captures of `re_internal_jo`. -/
structure IntMatch where
  jo : Nat
  branch : Option Nat := none
  paren : Option (List Char) := none
  hang : Option Nat := none
  ho : Option Nat := none
  mok : Option Char := none
deriving DecidableEq, Repr

/-- `re_internal_jo`:
`제\s*(\d+)\s*조(?:의\s*(\d+))?\s*(?:[(\[（]([^)\]）]*)[)\]）])?\s*(?:제?\s*(\d+)\s*항)?(?:제?\s*(\d+)\s*호)?(?:([가나다라마바사아자차카타파하])\s*목)?`
anchored at the head. -/
def matchInternalAt (cs : List Char) : Option (IntMatch × List Char) :=
  match parseJeNJo cs with
  | none => none
  | some (jo, r1) =>
    let (br, r2) := parseUiN r1
    let (pr, r3) := parseOptParen (skipWS r2)
    let r4 := skipWS r3
    let (hg, r5) := parseOptNumUnit '항' r4
    let (ho, r6) := parseOptNumUnit '호' r5
    let (mk, r7) := parseOptMok r6
    some ({ jo := jo, branch := br, paren := pr, hang := hg, ho := ho, mok := mk }, r7)

/-- `re_hang_only` : `제\s*(\d+)\s*항` anchored at the head. -/
def matchHangOnlyAt (cs : List Char) : Option (Nat × List Char) :=
  match cs with
  | '제' :: r1 =>
    match readDigits (skipWS r1) with
    | some (_, n, r2) =>
      match skipWS r2 with
      | '항' :: r3 => some (n, r3)
      | _ => none
    | none => none
  | _ => none

/-- `re.search(r'제\s*\d+\s*조', context)` : does `제\s*\d+\s*조` occur anywhere? -/
def containsJeNJo : List Char → Bool
  | [] => false
  | c :: t => (parseJeNJo (c :: t)).isSome || containsJeNJo t

/-! ## finditer -/

/-- One match produced by `finditer`: captured payload, code-point span
`[start, stop)` and the matched text (`group(0)`). -/
structure Found (α : Type) where
  payload : α
  start : Nat
  stop : Nat
  raw : List Char
deriving DecidableEq, Repr

/-- Scanning loop of `finditer` (see `findIterAux`). The `Nat` argument is
recursion fuel: every step consumes at least one character, so starting it at
the list length makes the fuel-exhausted branch unreachable (structural
recursion lets the kernel evaluate the function). -/
def findIterGo {α : Type} (m : List Char → Option (α × List Char)) :
    Nat → List Char → Nat → List (Found α)
  | _, [], _ => []
  | 0, _ :: _, _ => []
  | Nat.succ fuel, c :: t, pos =>
    match m (c :: t) with
    | some (a, rest) =>
      let k := t.length + 1 - rest.length
      if k = 0 then
        { payload := a, start := pos, stop := pos, raw := [] } :: findIterGo m fuel t (pos + 1)
      else
        { payload := a, start := pos, stop := pos + k, raw := (c :: t).take k }
          :: findIterGo m fuel ((c :: t).drop k) (pos + k)
    | none => findIterGo m fuel t (pos + 1)

/-- Python `finditer` over a head-anchored matcher `m` that returns the
unconsumed suffix: scan left to right, resuming after each (nonempty) match.
(None of the embedded patterns can match the empty string; the zero-width
case mirrors Python's advance-by-one anyway.) -/
def findIterAux {α : Type} (m : List Char → Option (α × List Char))
    (cs : List Char) (pos : Nat) : List (Found α) :=
  findIterGo m cs.length cs pos

/-! ## ReferenceExtractor -/

/-- Construction data of `ReferenceExtractor`: the harvested external-law
names (`external_laws`, in the iteration order of the Python set) and
`current_doc_name`. -/
structure ExtCfg where
  laws : List String
  docName : String
deriving DecidableEq, Repr

/-- Loop body of the paragraph-only pass (pass 3) of
`ReferenceExtractor.extract`: skip matches already subsumed by an
article+paragraph reference, skip matches with `제N조` in the preceding
(up to) 20 characters, otherwise append the relative reference. -/
def hangOnlyStep (sourceId : String) (jo : Nat) (cs : List Char)
    (acc : List Reference) (f : Found Nat) : List Reference :=
  let already := acc.any (fun r =>
    (r.target_jo ≠ none && r.target_jo ≠ some 0) && r.target_hang = some f.payload)
  if already then acc
  else
    let ctxStart := f.start - 20
    let ctx := (cs.drop ctxStart).take (f.start - ctxStart)
    if containsJeNJo ctx then acc
    else acc ++ [{ ref_type := "internal", source_id := sourceId,
                   target_jo := some jo, target_hang := some f.payload,
                   raw_text := String.mk f.raw }]

/-- `ReferenceExtractor.extract(content, source_id, current_jo)`. -/
def ReferenceExtractor.extract (cfg : ExtCfg) (content : String) (sourceId : String)
    (currentJo : Option Nat) : List Reference :=
  let cs := content.data
  let lawsC := cfg.laws.map String.data
  let extMatches := findIterAux (matchExternalAt lawsC) cs 0
  -- pass 1: external references, skipping self-references
  let pass1 := extMatches.filterMap (fun f =>
    if (!cfg.docName.data.isEmpty && containsSub f.payload.law cfg.docName.data)
        || containsSub f.payload.law ['약', '관'] then none
    else some { ref_type := "external", source_id := sourceId,
                target_law := some (String.mk f.payload.law),
                target_jo := some f.payload.tail.jo,
                target_jo_branch := f.payload.tail.branch,
                target_hang := f.payload.tail.hang,
                target_ho := f.payload.tail.ho,
                raw_text := String.mk f.raw })
  -- pass 2: internal references whose start does not fall inside an
  -- external-pattern span (the spans of *all* `re_external` matches)
  let extSpans := extMatches.map (fun f => (f.start, f.stop))
  let intMatches := findIterAux matchInternalAt cs 0
  let pass2 := intMatches.filterMap (fun f =>
    if extSpans.any (fun sp => sp.1 ≤ f.start && f.start < sp.2) then none
    else some { ref_type := "internal", source_id := sourceId,
                target_jo := some f.payload.jo,
                target_jo_branch := f.payload.branch,
                target_hang := f.payload.hang,
                target_ho := f.payload.ho,
                target_mok := f.payload.mok.map (fun c => String.mk [c]),
                raw_text := String.mk f.raw })
  let refs12 := pass1 ++ pass2
  -- pass 3: paragraph-only references relative to the current article
  match currentJo with
  | some jo =>
    if jo = 0 then refs12
    else (findIterAux matchHangOnlyAt cs 0).foldl (hangOnlyStep sourceId jo cs) refs12
  | none => refs12

/-! ## Hierarchy level constants -/

def LEVEL_SECTION : Int := 0
def LEVEL_PYEON : Int := 1
def LEVEL_JANG : Int := 2
def LEVEL_JEOL : Int := 3
def LEVEL_GWAN : Int := 4
def LEVEL_JO : Int := 5
def LEVEL_HANG : Int := 6
def LEVEL_HO : Int := 7
def LEVEL_MOK : Int := 8
def LEVEL_SEMOK : Int := 9
def LEVEL_DASH : Int := 10

/-! ## PatternMatcher -/

/-- The circled paragraph numerals ①…⑳ in order (`CIRCLED_NUMBERS`). -/
def circledList : List Char :=
  ['①', '②', '③', '④', '⑤', '⑥', '⑦', '⑧', '⑨', '⑩',
   '⑪', '⑫', '⑬', '⑭', '⑮', '⑯', '⑰', '⑱', '⑲', '⑳']

/-- `CIRCLED_NUMBERS.get(c, 1)`. -/
def circledValD (c : Char) : Nat :=
  match circledList.findIdx? (fun d => d = c) with
  | some i => i + 1
  | none => 1

/-- `MOK_CHARS.index(c) + 1` (only called on members). -/
def mokValD (c : Char) : Nat :=
  match mokChars.findIdx? (fun d => d = c) with
  | some i => i + 1
  | none => 1

/-- The `ROMAN_NUMERALS` dictionary (keys already lowercase). -/
def romanPairs : List (List Char × Nat) :=
  [(['ⅰ'], 1), (['ⅱ'], 2), (['ⅲ'], 3), (['ⅳ'], 4), (['ⅴ'], 5),
   (['ⅵ'], 6), (['ⅶ'], 7), (['ⅷ'], 8), (['ⅸ'], 9), (['ⅹ'], 10),
   (['i'], 1), (['i', 'i'], 2), (['i', 'i', 'i'], 3), (['i', 'v'], 4), (['v'], 5),
   (['v', 'i'], 6), (['v', 'i', 'i'], 7), (['v', 'i', 'i', 'i'], 8), (['i', 'x'], 9), (['x'], 10)]

/-- Python `str.lower()` on the characters a captured roman token can contain. -/
def lowerRoman (c : Char) : Char :=
  if c = 'I' then 'i'
  else if c = 'V' then 'v'
  else if c = 'X' then 'x'
  else if 'Ⅰ' ≤ c && c ≤ 'Ⅹ' then Char.ofNat (c.toNat + 16)
  else c

/-- `ROMAN_NUMERALS.get(tok.lower(), 1)`. -/
def romanValD (tok : List Char) : Nat :=
  match romanPairs.find? (fun p => p.1 == tok.map lowerRoman) with
  | some p => p.2
  | none => 1

/-- The result dictionary of `PatternMatcher.match`. -/
structure MatchInfo where
  type : String
  level : Int
  number : Option Nat := none
  branch : Option Nat := none
  marker : String := ""
  title : String := ""
  body : String := ""
  rest : String := ""
deriving DecidableEq, Repr

/-- Particle alternatives of the reference-sentence guard
(`의\s|에\s|를\s|와\s|과\s|에서\s|으로\s|부터\s`). -/
def particleHeads : List (List Char) :=
  [['의'], ['에'], ['를'], ['와'], ['과'], ['에', '서'], ['으', '로'], ['부', '터']]

def hasParticleAt (cs : List Char) : Bool :=
  particleHeads.any (fun p =>
    startsWithCh cs p &&
      (match cs.drop p.length with
       | c :: _ => isWS c
       | [] => false))

/-- The reference-sentence guard `re_jo_reference`:
`^제\s*\d+\s*조(?:의\s*\d+)?\s*(?:[(\[（][^)\]）]*[)\]）])?\s*(의\s|에\s|를\s|와\s|과\s|에서\s|으로\s|부터\s)`
(both optional groups are tried greedily and dropped on backtracking). -/
def isJoReferenceHead (cs : List Char) : Bool :=
  match cs with
  | '제' :: r1 =>
    (match readDigits (skipWS r1) with
     | some (_, _, r2) =>
       (match skipWS r2 with
        | '조' :: r3 =>
          let afterUi : List (List Char) :=
            match r3 with
            | '의' :: r4 =>
              (match readDigits (skipWS r4) with
               | some (_, _, r5) => [r5, r3]
               | none => [r3])
            | _ => [r3]
          afterUi.any (fun s =>
            let s1 := skipWS s
            let afterParen : List (List Char) :=
              match parseOptParen s1 with
              | (some _, s2) => [s2, s1]
              | (none, _) => [s1]
            afterParen.any (fun u => hasParticleAt (skipWS u)))
        | _ => false)
     | none => false)
  | _ => false

/-- `re_special` : `^(?:【([^】]+)】|<([^>]+)>)` (marker, title). -/
def matchSpecialAt (cs : List Char) : Option (String × String) :=
  match cs with
  | '【' :: r1 =>
    let inner := r1.takeWhile (fun c => c ≠ '】')
    if inner.isEmpty then none
    else
      match r1.dropWhile (fun c => c ≠ '】') with
      | '】' :: _ => some (String.mk ('【' :: (inner ++ ['】'])), String.mk inner)
      | _ => none
  | '<' :: r1 =>
    let inner := r1.takeWhile (fun c => c ≠ '>')
    if inner.isEmpty then none
    else
      match r1.dropWhile (fun c => c ≠ '>') with
      | '>' :: _ => some (String.mk ('<' :: (inner ++ ['>'])), String.mk inner)
      | _ => none
  | _ => none

/-- The shared title tail `\s*[(\[]?([^)\]]*)[)\]]?\s*$` of the
편/장/절/관 patterns, applied after the unit character. -/
def parseUnitTitle (cs : List Char) : Option (List Char) :=
  let r1 := skipWS cs
  let r2 :=
    match r1 with
    | c :: t => if c = '(' || c = '[' then t else r1
    | [] => r1
  let inner := r2.takeWhile (fun c => !(c = ')' || c = ']'))
  let r3 := r2.dropWhile (fun c => !(c = ')' || c = ']'))
  let r4 :=
    match r3 with
    | c :: t => if c = ')' || c = ']' then t else r3
    | [] => r3
  if (skipWS r4).isEmpty then some inner else none

/-- `^제\s*(\d+)\s*U\s*[(\[]?([^)\]]*)[)\]]?\s*$` for a unit character `U`
(편/장/절/관); returns (raw digits, number, raw title group). -/
def matchSimpleUnit (unit : Char) (cs : List Char) : Option (List Char × Nat × List Char) :=
  match cs with
  | '제' :: r1 =>
    (match readDigits (skipWS r1) with
     | some (ds, n, r2) =>
       (match skipWS r2 with
        | u :: r3 =>
          if u = unit then (parseUnitTitle r3).map (fun t => (ds, n, t)) else none
        | [] => none)
     | none => none)
  | _ => none

/-- `re_jang_branch` : `^제\s*(\d+)\s*장의\s*(\d+)\s*[(\[]?([^)\]]*)[)\]]?\s*$`. -/
def matchJangBranchAt (cs : List Char) : Option (List Char × Nat × List Char × Nat × List Char) :=
  match cs with
  | '제' :: r1 =>
    (match readDigits (skipWS r1) with
     | some (ds, n, r2) =>
       (match skipWS r2 with
        | '장' :: '의' :: r3 =>
          (match readDigits (skipWS r3) with
           | some (bs, b, r4) => (parseUnitTitle r4).map (fun t => (ds, n, bs, b, t))
           | none => none)
        | _ => none)
     | none => none)
  | _ => none

/-- `(.*)$` with DOTALL **not** set (`re_jo_no_paren`, 항/호/목/세목/대시 tails):
a maximal run of non-newline characters that must reach the end of the string
(or leave exactly one final newline). -/
def lineRest (cs : List Char) : Option (List Char) :=
  let run := cs.takeWhile (fun c => c ≠ '\n')
  match cs.dropWhile (fun c => c ≠ '\n') with
  | [] => some run
  | ['\n'] => some run
  | _ => none

/-- `re_jo_branch_bracket` : `^제\s*(\d+)\s*조의\s*(\d+)\s*\[([^\]]*)\](.*)` (DOTALL). -/
def matchJoBranchBracketAt (cs : List Char) :
    Option (List Char × Nat × List Char × Nat × List Char × List Char) :=
  match cs with
  | '제' :: r1 =>
    (match readDigits (skipWS r1) with
     | some (ds, n, r2) =>
       (match skipWS r2 with
        | '조' :: '의' :: r3 =>
          (match readDigits (skipWS r3) with
           | some (bs, b, r4) =>
             (match skipWS r4 with
              | '[' :: r5 =>
                let inner := r5.takeWhile (fun c => c ≠ ']')
                (match r5.dropWhile (fun c => c ≠ ']') with
                 | ']' :: r6 => some (ds, n, bs, b, inner, r6)
                 | _ => none)
              | _ => none)
           | none => none)
        | _ => none)
     | none => none)
  | _ => none

/-- `re_jo_branch` : `^제\s*(\d+)\s*조의\s*(\d+)\s*[(\[（]([^)\]）]*)[)\]）]?(.*)`
(DOTALL, note the *optional* closer). -/
def matchJoBranchAt (cs : List Char) :
    Option (List Char × Nat × List Char × Nat × List Char × List Char) :=
  match cs with
  | '제' :: r1 =>
    (match readDigits (skipWS r1) with
     | some (ds, n, r2) =>
       (match skipWS r2 with
        | '조' :: '의' :: r3 =>
          (match readDigits (skipWS r3) with
           | some (bs, b, r4) =>
             (match skipWS r4 with
              | c :: r5 =>
                if isOpenParen c then
                  let inner := r5.takeWhile (fun d => !isCloseParen d)
                  let r6 := r5.dropWhile (fun d => !isCloseParen d)
                  let r7 :=
                    match r6 with
                    | d :: t => if isCloseParen d then t else r6
                    | [] => r6
                  some (ds, n, bs, b, inner, r7)
                else none
              | [] => none)
           | none => none)
        | _ => none)
     | none => none)
  | _ => none

/-- `re_jo_bracket` : `^제\s*(\d+)\s*조\s*\[([^\]]*)\](.*)` (DOTALL). -/
def matchJoBracketAt (cs : List Char) : Option (List Char × Nat × List Char × List Char) :=
  match cs with
  | '제' :: r1 =>
    (match readDigits (skipWS r1) with
     | some (ds, n, r2) =>
       (match skipWS r2 with
        | '조' :: r3 =>
          (match skipWS r3 with
           | '[' :: r4 =>
             let inner := r4.takeWhile (fun c => c ≠ ']')
             (match r4.dropWhile (fun c => c ≠ ']') with
              | ']' :: r5 => some (ds, n, inner, r5)
              | _ => none)
           | _ => none)
        | _ => none)
     | none => none)
  | _ => none

/-- `re_jo` : `^제\s*(\d+)\s*조\s*[(\[（]([^)\]）]*)[)\]）](.*)` (DOTALL, closer required). -/
def matchJoParenAt (cs : List Char) : Option (List Char × Nat × List Char × List Char) :=
  match cs with
  | '제' :: r1 =>
    (match readDigits (skipWS r1) with
     | some (ds, n, r2) =>
       (match skipWS r2 with
        | '조' :: r3 =>
          (match skipWS r3 with
           | c :: r4 =>
             if isOpenParen c then
               let inner := r4.takeWhile (fun d => !isCloseParen d)
               (match r4.dropWhile (fun d => !isCloseParen d) with
                | d :: r5 => if isCloseParen d then some (ds, n, inner, r5) else none
                | [] => none)
             else none
           | [] => none)
        | _ => none)
     | none => none)
  | _ => none

/-- `re_jo_no_paren` : `^제\s*(\d+)\s*조\s+(.*)$`. -/
def matchJoNoParenAt (cs : List Char) : Option (List Char × Nat × List Char) :=
  match cs with
  | '제' :: r1 =>
    (match readDigits (skipWS r1) with
     | some (ds, n, r2) =>
       (match skipWS r2 with
        | '조' :: r3 =>
          if (r3.takeWhile isWS).isEmpty then none
          else (lineRest (r3.dropWhile isWS)).map (fun t => (ds, n, t))
        | _ => none)
     | none => none)
  | _ => none

/-- `re_hang` : `^([①②③④⑤⑥⑦⑧⑨⑩⑪⑫⑬⑭⑮⑯⑰⑱⑲⑳])\s*(.*)$`. -/
def matchHangAt (cs : List Char) : Option (Char × List Char) :=
  match cs with
  | c :: r1 =>
    if circledList.contains c then
      (lineRest (skipWS r1)).map (fun t => (c, t))
    else none
  | [] => none

/-- `re_ho` : `^(\d+)\.\s+(.+)$`. -/
def matchHoAt (cs : List Char) : Option (List Char × Nat × List Char) :=
  match readDigits cs with
  | some (ds, n, r1) =>
    (match r1 with
     | '.' :: r2 =>
       if (r2.takeWhile isWS).isEmpty then none
       else
         (match lineRest (r2.dropWhile isWS) with
          | some t => if t.isEmpty then none else some (ds, n, t)
          | none => none)
     | _ => none)
  | none => none

/-- `re_mok` : `^([가나다라마바사아자차카타파하])\.\s+(.+)$`. -/
def matchMokAt (cs : List Char) : Option (Char × List Char) :=
  match cs with
  | c :: '.' :: r1 =>
    if mokChars.contains c then
      if (r1.takeWhile isWS).isEmpty then none
      else
        (match lineRest (r1.dropWhile isWS) with
         | some t => if t.isEmpty then none else some (c, t)
         | none => none)
    else none
  | _ => none

/-- Roman-token alternatives of `re_semok`, in regex order
(`[ⅰⅱⅲⅳⅴⅵⅶⅷⅸⅹ]|i{1,3}|iv|vi{0,3}|ix|x`, IGNORECASE): each candidate is the
list of characters it would consume at the head of `cs`. -/
def semokTokens (cs : List Char) : List (List Char) :=
  let isI : Char → Bool := fun c => c = 'i' || c = 'I'
  let isV : Char → Bool := fun c => c = 'v' || c = 'V'
  let isX : Char → Bool := fun c => c = 'x' || c = 'X'
  let glyphAlt : List (List Char) :=
    match cs with
    | c :: _ =>
      if ('ⅰ' ≤ c && c ≤ 'ⅹ') || ('Ⅰ' ≤ c && c ≤ 'Ⅹ') then [[c]] else []
    | [] => []
  let iRun := (cs.takeWhile isI).length
  let iAlts := (List.range (min 3 iRun)).reverse.map (fun j => cs.take (j + 1))
  let ivAlt : List (List Char) :=
    match cs with
    | a :: b :: _ => if isI a && isV b then [cs.take 2] else []
    | _ => []
  let viAlts : List (List Char) :=
    match cs with
    | a :: t =>
      if isV a then
        let k := min 3 (t.takeWhile isI).length
        (List.range (k + 1)).reverse.map (fun j => cs.take (1 + j))
      else []
    | [] => []
  let ixAlt : List (List Char) :=
    match cs with
    | a :: b :: _ => if isI a && isX b then [cs.take 2] else []
    | _ => []
  let xAlt : List (List Char) :=
    match cs with
    | a :: _ => if isX a then [cs.take 1] else []
    | [] => []
  glyphAlt ++ iAlts ++ ivAlt ++ viAlts ++ ixAlt ++ xAlt

/-- `re_semok` : `^\s*[\(（]\s*([ⅰⅱⅲⅳⅴⅵⅶⅷⅸⅹ]|i{1,3}|iv|vi{0,3}|ix|x)\s*[\)）]\s*(.+)$`
(IGNORECASE); returns (raw token, title group). -/
def matchSemokAt (cs : List Char) : Option (List Char × List Char) :=
  match skipWS cs with
  | c :: r1 =>
    if c = '(' || c = '（' then
      let r2 := skipWS r1
      (semokTokens r2).findSome? (fun tok =>
        match skipWS (r2.drop tok.length) with
        | d :: r3 =>
          if d = ')' || d = '）' then
            (match lineRest (skipWS r3) with
             | some t => if t.isEmpty then none else some (tok, t)
             | none => none)
          else none
        | [] => none)
    else none
  | [] => none

/-- `re_dash` : `^[-－‐–—]\s*(.+)$`. -/
def matchDashAt (cs : List Char) : Option (List Char) :=
  match cs with
  | c :: r1 =>
    if c = '-' || c = '－' || c = '‐' || c = '–' || c = '—' then
      (match lineRest (skipWS r1) with
       | some t => if t.isEmpty then none else some t
       | none => none)
    else none
  | [] => none

/-- `PatternMatcher.match(content)` (named `matchText` because `match` is a
Lean keyword): strips the fragment, applies the reference-sentence guard and
then the pattern cascade in source order. -/
def PatternMatcher.matchText (content : String) : Option MatchInfo :=
  let cs := trimCh content.data
  if cs.isEmpty then none
  else if isJoReferenceHead cs then none
  else
    match matchSpecialAt cs with
    | some (marker, title) =>
      some { type := "special", level := -1, number := none,
             marker := marker, title := title, body := "", rest := String.mk cs }
    | none =>
    match matchSimpleUnit '편' cs with
    | some (ds, n, t) =>
      let ts := trimCh t
      some { type := "편", level := LEVEL_PYEON, number := some n, branch := none,
             marker := "제" ++ String.mk ds ++ "편",
             title := if ts.isEmpty then String.mk cs else String.mk ts,
             body := "", rest := "" }
    | none =>
    match matchJangBranchAt cs with
    | some (ds, n, bs, b, t) =>
      let ts := trimCh t
      some { type := "장", level := LEVEL_JANG, number := some n, branch := some b,
             marker := "제" ++ String.mk ds ++ "장의" ++ String.mk bs,
             title := if ts.isEmpty then String.mk cs else String.mk ts,
             body := "", rest := "" }
    | none =>
    match matchSimpleUnit '장' cs with
    | some (ds, n, t) =>
      let ts := trimCh t
      some { type := "장", level := LEVEL_JANG, number := some n, branch := none,
             marker := "제" ++ String.mk ds ++ "장",
             title := if ts.isEmpty then String.mk cs else String.mk ts,
             body := "", rest := "" }
    | none =>
    match matchSimpleUnit '절' cs with
    | some (ds, n, t) =>
      let ts := trimCh t
      some { type := "절", level := LEVEL_JEOL, number := some n, branch := none,
             marker := "제" ++ String.mk ds ++ "절",
             title := if ts.isEmpty then String.mk cs else String.mk ts,
             body := "", rest := "" }
    | none =>
    match matchSimpleUnit '관' cs with
    | some (ds, n, t) =>
      let ts := trimCh t
      some { type := "관", level := LEVEL_GWAN, number := some n, branch := none,
             marker := "제" ++ String.mk ds ++ "관",
             title := if ts.isEmpty then String.mk cs else String.mk ts,
             body := "", rest := "" }
    | none =>
    match matchJoBranchBracketAt cs with
    | some (ds, n, bs, b, t, body) =>
      some { type := "조", level := LEVEL_JO, number := some n, branch := some b,
             marker := "제" ++ String.mk ds ++ "조의" ++ String.mk bs,
             title := String.mk (trimCh t),
             body := String.mk (trimCh body), rest := String.mk cs }
    | none =>
    match matchJoBranchAt cs with
    | some (ds, n, bs, b, t, body) =>
      some { type := "조", level := LEVEL_JO, number := some n, branch := some b,
             marker := "제" ++ String.mk ds ++ "조의" ++ String.mk bs,
             title := String.mk (trimCh t),
             body := String.mk (trimCh body), rest := String.mk cs }
    | none =>
    match matchJoBracketAt cs with
    | some (ds, n, t, body) =>
      some { type := "조", level := LEVEL_JO, number := some n, branch := none,
             marker := "제" ++ String.mk ds ++ "조",
             title := String.mk (trimCh t),
             body := String.mk (trimCh body), rest := String.mk cs }
    | none =>
    match matchJoParenAt cs with
    | some (ds, n, t, body) =>
      some { type := "조", level := LEVEL_JO, number := some n, branch := none,
             marker := "제" ++ String.mk ds ++ "조",
             title := String.mk (trimCh t),
             body := String.mk (trimCh body), rest := String.mk cs }
    | none =>
    match matchJoNoParenAt cs with
    | some (ds, n, t) =>
      some { type := "조", level := LEVEL_JO, number := some n, branch := none,
             marker := "제" ++ String.mk ds ++ "조",
             title := String.mk ((trimCh t).take 20),
             body := "", rest := String.mk cs }
    | none =>
    match matchHangAt cs with
    | some (c, t) =>
      some { type := "항", level := LEVEL_HANG, number := some (circledValD c), branch := none,
             marker := String.mk [c],
             title := String.mk (t.take 50),
             body := "", rest := String.mk t }
    | none =>
    match matchHoAt cs with
    | some (ds, n, t) =>
      some { type := "호", level := LEVEL_HO, number := some n, branch := none,
             marker := String.mk ds ++ ".",
             title := String.mk (t.take 50),
             body := "", rest := String.mk t }
    | none =>
    match matchMokAt cs with
    | some (c, t) =>
      some { type := "목", level := LEVEL_MOK, number := some (mokValD c), branch := none,
             marker := String.mk [c] ++ ".",
             title := String.mk (t.take 50),
             body := "", rest := String.mk t }
    | none =>
    match matchSemokAt cs with
    | some (tok, t) =>
      some { type := "세목", level := LEVEL_SEMOK, number := some (romanValD tok), branch := none,
             marker := "(" ++ String.mk tok ++ ")",
             title := String.mk (t.take 50),
             body := "", rest := String.mk t }
    | none =>
    match matchDashAt cs with
    | some t =>
      some { type := "대시", level := LEVEL_DASH, number := none, branch := none,
             marker := "-",
             title := String.mk (t.take 50),
             body := "", rest := String.mk t }
    | none => none

/-! ## Builder data model

The Python tree of mutable `HierarchyNode` objects is represented as an arena
(`List HNode`); `children` holds arena indices, and the `stack` / special-node
aliases of `_parse_section` hold arena indices as well, so the shared-mutation
pattern of the source becomes a functional update at an index. -/

/-- A metadata value occurring in the source (`True`, or a string). -/
inductive MetaVal where
  | bool (b : Bool)
  | str (s : String)
deriving DecidableEq, Repr

/-- Arena form of `HierarchyNode` (children are arena indices). -/
structure HNode where
  id : String
  type : String
  level : Int
  number : Option Nat := none
  branch : Option Nat := none
  marker : String := ""
  title : String := ""
  content : String := ""
  page : Nat := 0
  children : List Nat := []
  references : List Reference := []
  metadata : List (String × MetaVal) := []
deriving DecidableEq, Repr

/-- One input content block (`block_content` stripped later, `page_index`). -/
structure Block where
  content : String := ""
  page : Nat := 0
deriving DecidableEq, Repr

/-- The per-section parse state of `_parse_section`. The stack is the Python
dict `stack` kept as an association list sorted strictly descending by key
(which is exactly the `sorted(stack.keys(), reverse=True)` iteration order);
a key mapped to `none` is a key present with value `None`. -/
structure PState where
  arena : List HNode
  stack : List (Int × Option Nat)
  lastNumbers : List (Int × Nat)
  inSpecial : Bool
  curSpecial : Option Nat
  curJo : Option Nat
  allRefs : List Reference
deriving DecidableEq, Repr

/-! ### Stack / arena primitive operations -/

/-- `stack[k]` if the key is present (`some v`); `none` when the key is absent. -/
def slotGet (s : List (Int × Option Nat)) (k : Int) : Option (Option Nat) :=
  match s.find? (fun p => p.1 == k) with
  | some p => some p.2
  | none => none

/-- `stack[k] = v` (insert or replace), keeping the list sorted descending. -/
def slotSet : List (Int × Option Nat) → Int → Option Nat → List (Int × Option Nat)
  | [], k, v => [(k, v)]
  | (k0, v0) :: t, k, v =>
    if k > k0 then (k, v) :: (k0, v0) :: t
    else if k = k0 then (k, v) :: t
    else (k0, v0) :: slotSet t k v

/-- `_reset_stack_below(stack, level)` : delete every key above `level`. -/
def resetStackBelow (s : List (Int × Option Nat)) (lvl : Int) : List (Int × Option Nat) :=
  s.filter (fun p => p.1 ≤ lvl)

/-- `max(stack.keys())`. All keys are ≥ 0 (key 0, the section, is never
deleted), so folding from 0 computes the maximum. -/
def maxKey (s : List (Int × Option Nat)) : Int :=
  s.foldl (fun a p => max a p.1) 0

/-- `_find_parent(stack, child_level)` : deepest entry strictly below
`child_level` whose value is not `None`; fallback `stack[LEVEL_SECTION]`
(index 0, the section node, in every reachable state). -/
def findParentIdx (s : List (Int × Option Nat)) (childLevel : Int) : Nat :=
  match s.find? (fun p => decide (p.1 < childLevel) && p.2.isSome) with
  | some (_, some i) => i
  | _ =>
    match slotGet s 0 with
    | some (some i) => i
    | _ => 0

/-- `_find_parent_for_special(stack)`. -/
def findParentForSpecialIdx (s : List (Int × Option Nat)) : Nat :=
  let mk := maxKey s
  match s.find? (fun p => decide (p.1 < mk) && p.2.isSome) with
  | some (_, some i) => i
  | _ =>
    match slotGet s 0 with
    | some (some i) => i
    | _ => 0

/-- `_find_most_recent(stack)`. -/
def findMostRecentIdx (s : List (Int × Option Nat)) : Option Nat :=
  match s.find? (fun p => p.2.isSome) with
  | some (_, some i) => some i
  | _ => none

/-- `last_numbers[k]` (keys 1..10 are always present). -/
def lastGet (ln : List (Int × Nat)) (k : Int) : Nat :=
  match ln.find? (fun p => p.1 == k) with
  | some p => p.2
  | none => 0

/-- `k in last_numbers`. -/
def lastMem (ln : List (Int × Nat)) (k : Int) : Bool :=
  (ln.find? (fun p => p.1 == k)).isSome

/-- `last_numbers[k] = v` (the source only assigns to present keys). -/
def lastSet (ln : List (Int × Nat)) (k : Int) (v : Nat) : List (Int × Nat) :=
  ln.map (fun p => if p.1 == k then (p.1, v) else p)

def nodeAt (a : List HNode) (i : Nat) : Option HNode := a[i]?

/-- Append a node to the arena, returning its index. -/
def pushNode (a : List HNode) (n : HNode) : List HNode × Nat := (a ++ [n], a.length)

def modifyNode (a : List HNode) (i : Nat) (f : HNode → HNode) : List HNode :=
  match a[i]? with
  | some n => a.set i (f n)
  | none => a

/-- `parent.children.append(child)`. -/
def appendChildIdx (a : List HNode) (p c : Nat) : List HNode :=
  modifyNode a p (fun n => { n with children := n.children ++ [c] })

/-- `node.content += "\n" + txt`. -/
def appendContentNL (a : List HNode) (i : Nat) (txt : String) : List HNode :=
  modifyNode a i (fun n => { n with content := n.content ++ "\n" ++ txt })

/-- `node.references.extend(rs)`. -/
def appendRefsAt (a : List HNode) (i : Nat) (rs : List Reference) : List HNode :=
  modifyNode a i (fun n => { n with references := n.references ++ rs })

def nodeTypeAt (a : List HNode) (i : Nat) : String :=
  match a[i]? with
  | some n => n.type
  | none => ""

def nodeIdAt (a : List HNode) (i : Nat) : String :=
  match a[i]? with
  | some n => n.id
  | none => ""

/-- Python truthiness of `metadata.get('global')`. -/
def metaTruthy : Option MetaVal → Bool
  | some (MetaVal.bool b) => b
  | some (MetaVal.str s) => !s.isEmpty
  | none => false

def metaGlobal (a : List HNode) (i : Nat) : Bool :=
  match a[i]? with
  | some n => metaTruthy ((n.metadata.find? (fun p => p.1 == "global")).map (fun p => p.2))
  | none => false

/-! ### Global special blocks -/

structure GlobalSpecial where
  type : String
  marker : String
  title : String
deriving DecidableEq, Repr

/-- `^[\[【]별표\s*(\d*)[\]】]` : returns the (possibly empty) raw digit group. -/
def matchByeolpyoAt (cs : List Char) : Option (List Char) :=
  match cs with
  | c :: '별' :: '표' :: r1 =>
    if c = '[' || c = '【' then
      let r2 := skipWS r1
      let ds := r2.takeWhile isDigitCh
      match r2.dropWhile isDigitCh with
      | d :: _ => if d = ']' || d = '】' then some ds else none
      | [] => none
    else none
  | _ => none

/-- `_check_global_special(content)`. -/
def checkGlobalSpecial (cs : List Char) : Option GlobalSpecial :=
  match matchByeolpyoAt cs with
  | some ds =>
    some { type := "appendix", marker := "[별표" ++ String.mk ds ++ "]",
           title := String.mk (cs.take 50) }
  | none =>
    match cs with
    | '※' :: r1 =>
      (match skipWS r1 with
       | '용' :: '어' :: _ =>
         some { type := "glossary", marker := "※용어정의", title := String.mk (cs.take 50) }
       | _ => checkBigo cs)
    | _ => checkBigo cs
where
  /-- `^비고\s*$` or `^비고\s*\d`. -/
  checkBigo (cs : List Char) : Option GlobalSpecial :=
    match cs with
    | '비' :: '고' :: r1 =>
      (match skipWS r1 with
       | [] => some { type := "note", marker := "비고", title := String.mk (cs.take 50) }
       | d :: _ =>
         if isDigitCh d then
           some { type := "note", marker := "비고", title := String.mk (cs.take 50) }
         else none)
    | _ => none

/-- End condition of a *global* special block:
`re.match(r'^제\s*\d+\s*(조|관|장|절|편)', content)`. -/
def endsGlobalSpecial (cs : List Char) : Bool :=
  match cs with
  | '제' :: r1 =>
    (match readDigits (skipWS r1) with
     | some (_, _, r2) =>
       (match skipWS r2 with
        | c :: _ => c = '조' || c = '관' || c = '장' || c = '절' || c = '편'
        | [] => false)
     | none => false)
  | _ => false

/-! ### Context management -/

/-- `_ensure_hang_exists(stack, page)` : if an article is active but has no
active paragraph, synthesize the implicit paragraph ① under it. -/
def ensureHangExists (a : List HNode) (s : List (Int × Option Nat)) (page : Nat) :
    List HNode × List (Int × Option Nat) :=
  match slotGet s LEVEL_JO with
  | some (some joIdx) =>
    let hangSlot := slotGet s LEVEL_HANG
    if hangSlot = none || hangSlot = some none then
      let hN : HNode :=
        { id := nodeIdAt a joIdx ++ ".①", type := "항", level := LEVEL_HANG,
          number := some 1, marker := "①", title := "(자동생성)", content := "",
          page := page, metadata := [("auto_generated", MetaVal.bool true)] }
      let (a1, hIdx) := pushNode a hN
      (appendChildIdx a1 joIdx hIdx, slotSet s LEVEL_HANG (some hIdx))
    else (a, s)
  | _ => (a, s)

/-- The per-type dispatch of `_manage_context` (everything before the
safety-net paragraph synthesis at the end of the method). -/
def manageContextCore (a : List HNode) (s : List (Int × Option Nat)) (ln : List (Int × Nat))
    (ty : String) (lvl : Int) (num : Option Nat) (page : Nat) :
    List HNode × List (Int × Option Nat) × List (Int × Nat) :=
  if ty = "편" || ty = "장" || ty = "절" || ty = "관" || ty = "조" then
    (a, resetStackBelow s lvl, ln.map (fun p => if p.1 > lvl then (p.1, 0) else p))
  else if ty = "항" then
    (a, resetStackBelow s LEVEL_HANG,
     ln.map (fun p =>
       if p.1 == LEVEL_HO || p.1 == LEVEL_MOK || p.1 == LEVEL_SEMOK then (p.1, 0) else p))
  else if ty = "호" then
    if num = some 1 || num = some (lastGet ln LEVEL_HO + 1) then
      let (a', s') := ensureHangExists a s page
      (a', resetStackBelow s' LEVEL_HO,
       ln.map (fun p => if p.1 == LEVEL_MOK || p.1 == LEVEL_SEMOK then (p.1, 0) else p))
    else
      let (a', s') := ensureHangExists a s page
      (a', s', ln)
  else if ty = "목" then
    if num = some 1 || num = some (lastGet ln LEVEL_MOK + 1) then
      (a, resetStackBelow s LEVEL_MOK,
       ln.map (fun p => if p.1 == LEVEL_SEMOK then (p.1, 0) else p))
    else (a, s, ln)
  else if ty = "세목" then
    if num = some 1 then (a, resetStackBelow s LEVEL_SEMOK, ln)
    else (a, s, ln)
  else (a, s, ln)

/-- `_manage_context(stack, last_numbers, node_type, node_level, node_number, page)`. -/
def manageContext (a : List HNode) (s : List (Int × Option Nat)) (ln : List (Int × Nat))
    (ty : String) (lvl : Int) (num : Option Nat) (page : Nat) :
    List HNode × List (Int × Option Nat) × List (Int × Nat) :=
  let (a1, s1, ln1) := manageContextCore a s ln ty lvl num page
  -- safety net: a node below paragraph level needs an active paragraph
  if lvl > LEVEL_HANG then
    match slotGet s1 LEVEL_JO with
    | some (some _) =>
      let hangSlot := slotGet s1 LEVEL_HANG
      if hangSlot = none || hangSlot = some none then
        let (a2, s2) := ensureHangExists a1 s1 page
        (a2, s2, ln1)
      else (a1, s1, ln1)
    | _ => (a1, s1, ln1)
  else (a1, s1, ln1)

/-- Python truthiness of `node_number` (used for the `last_numbers` update). -/
def numTruthy : Option Nat → Bool
  | some n => n ≠ 0
  | none => false

/-! ### The fragment loop -/

/-- The inline special node created in the `node_type == 'special'` branch of
`_parse_section`. -/
def inlineSpecialNode (secName : String) (mi : MatchInfo) (content : String) (page : Nat) :
    HNode :=
  { id := secName ++ "." ++ mi.marker, type := "special", level := -1,
    marker := mi.marker, title := mi.title, content := content, page := page,
    metadata := [("special_type", MetaVal.str mi.title), ("inline", MetaVal.bool true)] }

/-- The part of the loop body of `_parse_section` that runs when the fragment
is not skipped as empty, not a global-special trigger, and not absorbed by an
open special block: pattern matching, node creation, and prose handling. -/
def DocumentParser.normalStep (cfg : ExtCfg) (secName : String) (st : PState)
    (cs : List Char) (content : String) (page : Nat) : PState :=
  match PatternMatcher.matchText content with
  | some mi =>
    if mi.type = "special" then
      -- inline special block: sibling under the parent of the deepest entry
      let node : HNode := inlineSpecialNode secName mi content page
      let p := findParentForSpecialIdx st.stack
      let (a1, idx) := pushNode st.arena node
      let a2 := appendChildIdx a1 p idx
      { st with arena := a2, curSpecial := some idx, inSpecial := true }
    else
      let (a1, s1, ln1) :=
        manageContext st.arena st.stack st.lastNumbers mi.type mi.level mi.number page
      let pIdx := findParentIdx s1 mi.level
      let nodeContent :=
        if mi.type = "조" && mi.body ≠ "" then
          String.mk (trimCh (replaceAll mi.body.data [] cs))
        else content
      let newId := nodeIdAt a1 pIdx ++ "." ++ mi.marker
      let refs := ReferenceExtractor.extract cfg content newId st.curJo
      let node : HNode :=
        { id := newId, type := mi.type, level := mi.level, number := mi.number,
          branch := mi.branch, marker := mi.marker, title := mi.title,
          content := nodeContent, page := page, references := refs }
      let (a2, idx) := pushNode a1 node
      let a3 := appendChildIdx a2 pIdx idx
      let s2 := slotSet s1 mi.level (some idx)
      let ln2 :=
        if lastMem ln1 mi.level && numTruthy mi.number then
          lastSet ln1 mi.level (mi.number.getD 0)
        else ln1
      let st1 : PState :=
        { st with arena := a3, stack := s2, lastNumbers := ln2,
                  allRefs := st.allRefs ++ refs }
      if mi.type = "조" then
        let st2 := { st1 with curJo := mi.number, stack := slotSet st1.stack LEVEL_HANG none }
        if mi.body ≠ "" then
          let hangId := newId ++ ".①"
          let hangRefs := ReferenceExtractor.extract cfg mi.body hangId st2.curJo
          let hN : HNode :=
            { id := hangId, type := "항", level := LEVEL_HANG, number := some 1,
              marker := "①", title := String.mk (mi.body.data.take 30),
              content := mi.body, page := page, references := hangRefs,
              metadata := [("auto_generated", MetaVal.bool true)] }
          let (a4, hIdx) := pushNode st2.arena hN
          let a5 := appendChildIdx a4 idx hIdx
          { st2 with arena := a5, stack := slotSet st2.stack LEVEL_HANG (some hIdx),
                     allRefs := st2.allRefs ++ hangRefs }
        else st2
      else st1
  | none =>
    -- fragment with no structural pattern
    if st.inSpecial && st.curSpecial.isSome then
      match st.curSpecial with
      | some ci => { st with arena := appendContentNL st.arena ci content }
      | none => st
    else
      match slotGet st.stack LEVEL_JO with
      | some (some joIdx) =>
        let hangSlot := slotGet st.stack LEVEL_HANG
        if hangSlot = none || hangSlot = some none then
          let hangId := nodeIdAt st.arena joIdx ++ ".①"
          let refs := ReferenceExtractor.extract cfg content hangId st.curJo
          let hN : HNode :=
            { id := hangId, type := "항", level := LEVEL_HANG, number := some 1,
              marker := "①", title := String.mk (cs.take 30), content := content,
              page := page, references := refs,
              metadata := [("auto_generated", MetaVal.bool true)] }
          let (a1, hIdx) := pushNode st.arena hN
          let a2 := appendChildIdx a1 joIdx hIdx
          { st with arena := a2, stack := slotSet st.stack LEVEL_HANG (some hIdx),
                    allRefs := st.allRefs ++ refs }
        else
          match findMostRecentIdx st.stack with
          | some ri =>
            if nodeTypeAt st.arena ri ≠ "section" then
              let refs := ReferenceExtractor.extract cfg content (nodeIdAt st.arena ri) st.curJo
              { st with arena := appendRefsAt (appendContentNL st.arena ri content) ri refs,
                        allRefs := st.allRefs ++ refs }
            else st
          | none => st
      | _ =>
        match findMostRecentIdx st.stack with
        | some ri =>
          if nodeTypeAt st.arena ri ≠ "section" then
            { st with arena := appendContentNL st.arena ri content }
          else st
        | none => st

/-- One iteration of the fragment loop of `_parse_section`. -/
def DocumentParser.parseStep (cfg : ExtCfg) (secName : String) (st : PState) (b : Block) :
    PState :=
  let cs := trimCh b.content.data
  let content := String.mk cs
  let page := b.page
  if cs.isEmpty then st
  else
    match checkGlobalSpecial cs with
    | some gs =>
      -- global special block: reset the whole context, open a special node
      let s1 := resetStackBelow st.stack LEVEL_SECTION
      let ln1 := st.lastNumbers.map (fun p => (p.1, 0))
      let node : HNode :=
        { id := secName ++ "." ++ gs.marker, type := "special", level := -1,
          marker := gs.marker, title := gs.title, content := content, page := page,
          metadata := [("special_type", MetaVal.str gs.type), ("global", MetaVal.bool true)] }
      let (a1, idx) := pushNode st.arena node
      let a2 := appendChildIdx a1 0 idx
      { arena := a2, stack := s1, lastNumbers := ln1, inSpecial := true,
        curSpecial := some idx, curJo := none, allRefs := st.allRefs }
    | none =>
      match st.curSpecial with
      | some ci =>
        if st.inSpecial then
          if metaGlobal st.arena ci then
            if endsGlobalSpecial cs then
              DocumentParser.normalStep cfg secName
                { st with inSpecial := false, curSpecial := none } cs content page
            else { st with arena := appendContentNL st.arena ci content }
          else
            if (PatternMatcher.matchText content).isSome then
              DocumentParser.normalStep cfg secName
                { st with inSpecial := false, curSpecial := none } cs content page
            else { st with arena := appendContentNL st.arena ci content }
        else DocumentParser.normalStep cfg secName st cs content page
      | none => DocumentParser.normalStep cfg secName st cs content page

/-- `_parse_section(section_info)` over the blocks of one section. -/
def DocumentParser.parseSection (cfg : ExtCfg) (secName : String) (blocks : List Block) :
    PState :=
  let secNode : HNode :=
    { id := secName, type := "section", level := LEVEL_SECTION, title := secName }
  let init : PState :=
    { arena := [secNode],
      stack := [((0 : Int), some 0)],
      lastNumbers := (List.range 10).map (fun j => ((j : Int) + 1, 0)),
      inSpecial := false, curSpecial := none, curJo := none, allRefs := [] }
  blocks.foldl (DocumentParser.parseStep cfg secName) init

/-- `DocumentParser.__init__` sets `current_doc_name = ""`; it is never
assigned anywhere else in the source, so `parse()` always constructs the
`ReferenceExtractor` with an empty document name. -/
def DocumentParser.initialDocName : String := ""

/-- The extractor configuration built in `DocumentParser.parse` (Step 2). -/
def DocumentParser.mkExtractorCfg (laws : List String) : ExtCfg :=
  { laws := laws, docName := DocumentParser.initialDocName }

/-- Result of `DocumentParser.parse`: the document root (id "root", type
"document", level −1) with one independently parsed section per detected
section, appended in order as its children. -/
structure DocResult where
  rootId : String
  rootType : String
  rootLevel : Int
  sections : List PState
deriving Repr

/-- `DocumentParser.parse` (Steps 2 and 4; loading, section detection and
reference resolution aside): each section is parsed with the extractor built
from the harvested law names and the (empty) current document name. -/
def DocumentParser.parse (laws : List String) (secs : List (String × List Block)) : DocResult :=
  { rootId := "root", rootType := "document", rootLevel := -1,
    sections := secs.map (fun s =>
      DocumentParser.parseSection (DocumentParser.mkExtractorCfg laws) s.1 s.2) }

/-! ## Serialization (`to_dict` / `_dict_to_node`)

For the round-trip claim, the tree is the recursive `HierarchyNode` object
structure of the source, and the serialized form is the dictionary shape
emitted by `HierarchyNode.to_dict` / `Reference.to_dict` (a JSON object with
exactly these keys; the JSON text layer maps these dictionaries to text and
back unchanged). -/

/-- The dictionary produced by `Reference.to_dict`. -/
structure RefDict where
  ref_type : String
  source_id : String
  target_law : Option String
  target_jo : Option Nat
  target_jo_branch : Option Nat
  target_hang : Option Nat
  target_ho : Option Nat
  target_mok : Option String
  raw_text : String
  resolved_id : Option String
deriving DecidableEq, Repr

/-- `Reference.to_dict`. -/
def Reference.toDict (r : Reference) : RefDict :=
  { ref_type := r.ref_type, source_id := r.source_id, target_law := r.target_law,
    target_jo := r.target_jo, target_jo_branch := r.target_jo_branch,
    target_hang := r.target_hang, target_ho := r.target_ho, target_mok := r.target_mok,
    raw_text := r.raw_text, resolved_id := r.resolved_id }

/-- The `Reference(...)` reconstruction inside `_dict_to_node`. -/
def dictToRef (d : RefDict) : Reference :=
  { ref_type := d.ref_type, source_id := d.source_id, target_law := d.target_law,
    target_jo := d.target_jo, target_jo_branch := d.target_jo_branch,
    target_hang := d.target_hang, target_ho := d.target_ho, target_mok := d.target_mok,
    raw_text := d.raw_text, resolved_id := d.resolved_id }

/-- The recursive `HierarchyNode` dataclass (fields in source order:
id, type, level, number, branch, marker, title, content, page, children,
references, metadata). -/
inductive HierarchyNode : Type where
  | mk : String → String → Int → Option Nat → Option Nat → String → String → String →
         Nat → List HierarchyNode → List Reference → List (String × MetaVal) → HierarchyNode

/-- The dictionary produced by `HierarchyNode.to_dict` (same keys/order). -/
inductive NodeDict : Type where
  | mk : String → String → Int → Option Nat → Option Nat → String → String → String →
         Nat → List NodeDict → List RefDict → List (String × MetaVal) → NodeDict

mutual

/-- `HierarchyNode.to_dict`. -/
def HierarchyNode.toDict : HierarchyNode → NodeDict
  | .mk i ty lv nu br mr ti co pg ch rs md =>
    NodeDict.mk i ty lv nu br mr ti co pg (toDictList ch) (rs.map Reference.toDict) md

/-- `[c.to_dict() for c in self.children]`. -/
def toDictList : List HierarchyNode → List NodeDict
  | [] => []
  | x :: xs => HierarchyNode.toDict x :: toDictList xs

end

mutual

/-- `_dict_to_node`. -/
def dictToNode : NodeDict → HierarchyNode
  | .mk i ty lv nu br mr ti co pg ch rs md =>
    HierarchyNode.mk i ty lv nu br mr ti co pg (dictToNodeList ch) (rs.map dictToRef) md

/-- The recursive rebuild of the `children` list in `_dict_to_node`. -/
def dictToNodeList : List NodeDict → List HierarchyNode
  | [] => []
  | x :: xs => dictToNode x :: dictToNodeList xs

end

/-! ## Invariant predicates and concrete scenario states -/

/-- Every parent-child edge of the arena satisfies the level invariant of the
data-model section of the design: a child is either a Special node or sits at
least one level below its parent. -/
def EdgeOk (a : List HNode) : Prop :=
  ∀ n ∈ a, ∀ j ∈ n.children, ∃ m, a[j]? = some m ∧ (m.type = "special" ∨ n.level + 1 ≤ m.level)

/-- Every occupied stack slot points to an arena node whose level equals the
slot key. -/
def stackWF (a : List HNode) (s : List (Int × Option Nat)) : Prop :=
  ∀ p ∈ s, ∀ i, p.2 = some i → ∃ n, a[i]? = some n ∧ n.level = p.1

/-- Boolean (decidable) form of `stackWF`. -/
def stackWFb (a : List HNode) (s : List (Int × Option Nat)) : Bool :=
  s.all (fun p =>
    match p.2 with
    | some i =>
      (match a[i]? with
       | some n => n.level == p.1
       | none => false)
    | none => true)

/-- The combined state invariant of the section builder: the level invariant
on edges, well-formed stack slots, and the section root at index 0 / key 0. -/
def ArenaStackOk (a : List HNode) (s : List (Int × Option Nat)) : Prop :=
  EdgeOk a ∧ stackWF a s ∧ (∃ n0, a[0]? = some n0 ∧ n0.level = 0) ∧
    slotGet s 0 = some (some 0)

/-- An extractor configuration with no harvested laws and an empty document
name (the configuration every `DocumentParser.parse` run uses when no
`【법규N】` section is present). -/
def emptyCfg : ExtCfg := ⟨[], ""⟩

/-- Scenario: a section whose single fragment opened a global special block
(`[별표1]`). -/
def c2State : PState :=
  DocumentParser.parseSection emptyCfg "본문" [{ content := "[별표1] 별표내용", page := 0 }]

/-- A fragment that merely *references* 제1조 (the §4.1 guard rejects it as a
declaration), arriving while the global special block is open. -/
def c2Block : Block := { content := "제1조에 따라 적용합니다", page := 0 }

/-- A prose continuation fragment for the open special block. -/
def c2BlockCont : Block := { content := "내용 계속", page := 0 }

/-- Scenario: a section in which a bare-form Article was just opened, so the
stack holds the Article at key 5 and an explicit `None` at the Paragraph
key 6. -/
def c3State : PState :=
  DocumentParser.parseSection emptyCfg "본문" [{ content := "제1조 보험금의 지급사유", page := 0 }]

/-- An inline special fragment. -/
def c3Block : Block := { content := "【주의】 유의사항", page := 0 }

/-- The match result of the inline special fragment. -/
def c3Mi : MatchInfo :=
  { type := "special", level := -1, number := none, branch := none,
    marker := "【주의】", title := "주의", body := "", rest := "【주의】 유의사항" }

/-- Scenario: a section whose only structural node is a Chapter (장) — no
Article is active. -/
def c5State : PState :=
  DocumentParser.parseSection emptyCfg "본문" [{ content := "제1장 총칙", page := 0 }]

/-- A prose fragment containing an internal citation. -/
def c5Block : Block := { content := "제5조에 따라 보상합니다", page := 0 }

/-- Scenario: a freshly initialized section (only the section root is active). -/
def c9State : PState := DocumentParser.parseSection emptyCfg "본문" []

/-- A prose fragment with no structural marker. -/
def c9Block : Block := { content := "이 계약은 보험계약입니다", page := 0 }

/-- The Item sequence 1., 2., (가.), 4. of the non-sequential-Item scenario,
inside one Article whose body seeds the active Paragraph. -/
def c8Blocks : List Block :=
  [{ content := "제1조(목적) 이 약관은 보험금 지급을 정한다", page := 0 },
   { content := "1. 사고", page := 0 },
   { content := "2. 질병", page := 0 },
   { content := "가. 세부사항", page := 0 },
   { content := "4. 기타사항", page := 0 }]

def c8State : PState := DocumentParser.parseSection emptyCfg "본문" c8Blocks

/-- Scenario: the glued Article fragment of the implicit-paragraph example. -/
def c4State : PState :=
  DocumentParser.parseSection emptyCfg "본문"
    [{ content := "제2조(정의)이 계약에서 보험금이라 함은...", page := 1 }]

/-- The C1 counterexample text: the law name `약관법` matches the external
pattern but is discarded (it contains `약관`), and its span covers the
internal `제5조` occurrence. -/
def c1Text : String := "약관법 제5조에 따라 보상한다"

/-- The internal-pattern match inside the discarded external span. -/
def c1Found : Found IntMatch :=
  { payload := { jo := 5, branch := none, paren := none, hang := none, ho := none, mok := none },
    start := 4, stop := 7, raw := ['제', '5', '조'] }

/-- A plain internal citation used as the witness input for the amended C1. -/
def c1wText : String := "제3조에 따라"

def c1wFound : Found IntMatch :=
  { payload := { jo := 3, branch := none, paren := none, hang := none, ho := none, mok := none },
    start := 0, stop := 3, raw := ['제', '3', '조'] }

/-! ## Named components of `ReferenceExtractor.extract` (definitionally equal
to the corresponding passes of `extract`; used to state membership lemmas) -/

/-- The Internal `Reference` built by pass 2 of `extract` for one match. -/
def internalRefOf (sourceId : String) (f : Found IntMatch) : Reference :=
  { ref_type := "internal", source_id := sourceId,
    target_jo := some f.payload.jo,
    target_jo_branch := f.payload.branch,
    target_hang := f.payload.hang,
    target_ho := f.payload.ho,
    target_mok := f.payload.mok.map (fun c => String.mk [c]),
    raw_text := String.mk f.raw }

/-- The pass-2 skip condition: the match starts inside the span of some
`re_external` match (all of them, accepted or discarded). -/
def intRefCond (cfg : ExtCfg) (content : String) (f : Found IntMatch) : Bool :=
  ((findIterAux (matchExternalAt (cfg.laws.map String.data)) content.data 0).map
    (fun g => (g.start, g.stop))).any (fun sp => sp.1 ≤ f.start && f.start < sp.2)

/-- Pass 1 of `extract` (external references, with the self-reference discard). -/
def extractPass1 (cfg : ExtCfg) (content sourceId : String) : List Reference :=
  (findIterAux (matchExternalAt (cfg.laws.map String.data)) content.data 0).filterMap (fun f =>
    if (!cfg.docName.data.isEmpty && containsSub f.payload.law cfg.docName.data)
        || containsSub f.payload.law ['약', '관'] then none
    else some { ref_type := "external", source_id := sourceId,
                target_law := some (String.mk f.payload.law),
                target_jo := some f.payload.tail.jo,
                target_jo_branch := f.payload.tail.branch,
                target_hang := f.payload.tail.hang,
                target_ho := f.payload.tail.ho,
                raw_text := String.mk f.raw })

/-- Pass 2 of `extract` (internal references outside all external spans). -/
def extractPass2 (cfg : ExtCfg) (content sourceId : String) : List Reference :=
  (findIterAux matchInternalAt content.data 0).filterMap (fun f =>
    if intRefCond cfg content f then none else some (internalRefOf sourceId f))

/-- The state produced by the Article-active prose branch of `normalStep`
(lines 977–988 of `_parse_section`): the fragment is appended (newline-joined)
to node `ri`, the references extracted from it are attached to node `ri`, and
they are also added to the global reference list. -/
def proseArticleAppend (cfg : ExtCfg) (st : PState) (ri : Nat) (content : String) : PState :=
  let refs := ReferenceExtractor.extract cfg content (nodeIdAt st.arena ri) st.curJo
  { st with arena := appendRefsAt (appendContentNL st.arena ri content) ri refs,
            allRefs := st.allRefs ++ refs }

/-! # Theorems -/

/-! ## Serialization helpers -/

theorem dictToRef_toDict (r : Reference) : dictToRef (Reference.toDict r) = r := rfl

mutual

theorem dictToNode_toDict_aux : ∀ n : HierarchyNode, dictToNode (HierarchyNode.toDict n) = n
  | .mk i ty lv nu br mr ti co pg ch rs md => by
    simp only [HierarchyNode.toDict, dictToNode, dictToNodeList_toDictList_aux ch,
      List.map_map, HierarchyNode.mk.injEq]
    rw [show dictToRef ∘ Reference.toDict = id from rfl, List.map_id]
    simp

theorem dictToNodeList_toDictList_aux :
    ∀ l : List HierarchyNode, dictToNodeList (toDictList l) = l
  | [] => rfl
  | x :: xs => by
    simp only [toDictList, dictToNodeList, dictToNode_toDict_aux x,
      dictToNodeList_toDictList_aux xs]

end

/-! ## Arena operation lemmas -/

theorem modifyNode_get_ne {a : List HNode} {i j : Nat} (f : HNode → HNode) (h : i ≠ j) :
    (modifyNode a i f)[j]? = a[j]? := by
  unfold modifyNode
  split
  · exact List.getElem?_set_ne h
  · rfl

theorem modifyNode_get_self {a : List HNode} {i : Nat} {n : HNode} (f : HNode → HNode)
    (h : a[i]? = some n) : (modifyNode a i f)[i]? = some (f n) := by
  have hlt : i < a.length := (List.getElem?_eq_some_iff.mp h).1
  unfold modifyNode
  simp only [h]
  exact List.getElem?_set_self hlt

/-- Transfer indexed levels through an arena-modifying step. -/
theorem modify_keep_get {a : List HNode} {i : Nat} {f : HNode → HNode}
    (hf : ∀ n, (f n).level = n.level) (j : Nat) (n : HNode) (h : a[j]? = some n) :
    ∃ n', (modifyNode a i f)[j]? = some n' ∧ n'.level = n.level := by
  by_cases hij : i = j
  · subst hij
    exact ⟨f n, modifyNode_get_self f h, hf n⟩
  · exact ⟨n, by rw [modifyNode_get_ne f hij]; exact h, rfl⟩

theorem push_keep_get {a : List HNode} {m : HNode} (j : Nat) (n : HNode) (h : a[j]? = some n) :
    (a ++ [m])[j]? = some n := by
  have hlt : j < a.length := (List.getElem?_eq_some_iff.mp h).1
  rw [List.getElem?_append_left hlt]
  exact h

/-! ## EdgeOk preservation lemmas -/

theorem EdgeOk_push {a : List HNode} {n : HNode} (he : EdgeOk a) (hc : n.children = []) :
    EdgeOk (a ++ [n]) := by
  intro m hm j hj
  rcases List.mem_append.mp hm with hm | hm
  · rcases he m hm j hj with ⟨m', hm', hp⟩
    exact ⟨m', push_keep_get j m' hm', hp⟩
  · have hmn : m = n := by simpa using hm
    subst hmn
    rw [hc] at hj
    simp at hj

theorem EdgeOk_modify_keep {a : List HNode} {i : Nat} {f : HNode → HNode}
    (hf : ∀ n, (f n).level = n.level ∧ (f n).type = n.type ∧ (f n).children = n.children)
    (he : EdgeOk a) : EdgeOk (modifyNode a i f) := by
  intro m hm j hj
  have key : ∀ m₀ : HNode, m₀ ∈ a → ∀ j₀ ∈ m₀.children,
      ∃ m', (modifyNode a i f)[j₀]? = some m' ∧
        (m'.type = "special" ∨ m₀.level + 1 ≤ m'.level) := by
    intro m₀ hm₀ j₀ hj₀
    rcases he m₀ hm₀ j₀ hj₀ with ⟨m', hm', hp⟩
    by_cases hij : i = j₀
    · subst hij
      refine ⟨f m', modifyNode_get_self f hm', ?_⟩
      rcases hp with hp | hp
      · exact Or.inl (by rw [(hf m').2.1]; exact hp)
      · exact Or.inr (by rw [(hf m').1]; exact hp)
    · exact ⟨m', by rw [modifyNode_get_ne f hij]; exact hm', hp⟩
  unfold modifyNode at hm
  revert hm
  split
  · rename_i n₀ ha
    intro hm
    rcases List.mem_or_eq_of_mem_set hm with hm | hm
    · exact key m hm j hj
    · subst hm
      rw [(hf n₀).2.2] at hj
      have h0 : n₀ ∈ a := List.getElem?_mem ha
      rcases key n₀ h0 j hj with ⟨m', hm', hp⟩
      refine ⟨m', hm', ?_⟩
      rcases hp with hp | hp
      · exact Or.inl hp
      · exact Or.inr (by rw [(hf n₀).1]; exact hp)
  · intro hm
    exact key m hm j hj

theorem EdgeOk_appendChild {a : List HNode} {p c : Nat} (he : EdgeOk a) (hpc : p ≠ c)
    (hc : ∀ np, a[p]? = some np →
      ∃ m, a[c]? = some m ∧ (m.type = "special" ∨ np.level + 1 ≤ m.level)) :
    EdgeOk (appendChildIdx a p c) := by
  intro m hm j hj
  unfold appendChildIdx modifyNode at hm ⊢
  revert hm
  split
  · rename_i np ha
    intro hm
    have key : ∀ m₀ : HNode, m₀ ∈ a → ∀ j₀ ∈ m₀.children,
        ∃ m', (a.set p { np with children := np.children ++ [c] })[j₀]? = some m' ∧
          (m'.type = "special" ∨ m₀.level + 1 ≤ m'.level) := by
      intro m₀ hm₀ j₀ hj₀
      rcases he m₀ hm₀ j₀ hj₀ with ⟨m', hm', hp⟩
      by_cases hpj : p = j₀
      · subst hpj
        have hm'np : m' = np := by rw [ha] at hm'; exact (Option.some.injEq _ _ ▸ hm').symm
        subst hm'np
        have hlt : p < a.length := (List.getElem?_eq_some_iff.mp ha).1
        exact ⟨_, List.getElem?_set_self hlt, hp⟩
      · exact ⟨m', by rw [List.getElem?_set_ne hpj]; exact hm', hp⟩
    have hcnew : ∀ m₀ : HNode, m₀ ∈ a →
        ∃ m', (a.set p { np with children := np.children ++ [c] })[c]? = some m' ∧
          (m'.type = "special" ∨ np.level + 1 ≤ m'.level) := by
      intro m₀ _
      rcases hc np ha with ⟨mc, hmc, hp⟩
      exact ⟨mc, by rw [List.getElem?_set_ne hpc]; exact hmc, hp⟩
    rcases List.mem_or_eq_of_mem_set hm with hm | hm
    · exact key m hm j hj
    · subst hm
      simp only [List.mem_append] at hj
      rcases hj with hj | hj
      · have h0 : np ∈ a := List.getElem?_mem ha
        exact key np h0 j hj
      · have hjc : j = c := by simpa using hj
        subst hjc
        exact hcnew np (List.getElem?_mem ha)
  · intro hm
    exact he m hm j hj

/-! ## Stack lemmas -/

theorem mem_slotSet {s : List (Int × Option Nat)} {k : Int} {v : Option Nat}
    {p : Int × Option Nat} (h : p ∈ slotSet s k v) : p = (k, v) ∨ p ∈ s := by
  induction s with
  | nil => simpa [slotSet] using h
  | cons q t ih =>
    rcases q with ⟨k0, v0⟩
    unfold slotSet at h
    split at h
    · rcases List.mem_cons.mp h with h | h
      · exact Or.inl h
      · exact Or.inr h
    · split at h
      · rcases List.mem_cons.mp h with h | h
        · exact Or.inl h
        · exact Or.inr (List.mem_cons_of_mem _ h)
      · rcases List.mem_cons.mp h with h | h
        · exact Or.inr (by rw [h]; exact List.mem_cons_self _ _)
        · rcases ih h with h | h
          · exact Or.inl h
          · exact Or.inr (List.mem_cons_of_mem _ h)

theorem slotGet_slotSet_ne {s : List (Int × Option Nat)} {k k' : Int} {v : Option Nat}
    (h : k ≠ k') : slotGet (slotSet s k v) k' = slotGet s k' := by
  induction s with
  | nil => simp [slotSet, slotGet, h]
  | cons q t ih =>
    rcases q with ⟨k0, v0⟩
    unfold slotSet
    split
    · unfold slotGet
      simp only [List.find?_cons]
      have : ((k, v).1 == k') = false := by simpa using h
      rw [this]
    · split
      · rename_i hk0
        unfold slotGet
        simp only [List.find?_cons]
        have h1 : ((k, v).1 == k') = false := by simpa using h
        have h2 : ((k0, v0).1 == k') = false := by
          simp only [beq_eq_false_iff_ne, ne_eq]
          intro hc
          exact h (hk0 ▸ hc ▸ rfl)
        rw [h1, h2]
      · unfold slotGet
        simp only [List.find?_cons]
        by_cases hk : (k0 == k')
        · rw [(by simpa using hk : ((k0, v0).1 == k') = true)]
        · rw [(by simpa using hk : ((k0, v0).1 == k') = false)]
          exact ih

theorem find?_filter_imp {α : Type} {p q : α → Bool} {l : List α}
    (h : ∀ x, p x = true → q x = true) :
    List.find? p (l.filter q) = List.find? p l := by
  induction l with
  | nil => rfl
  | cons a t ih =>
    by_cases hq : q a = true
    · rw [List.filter_cons_of_pos hq]
      simp only [List.find?_cons]
      cases hp : p a
      · exact ih
      · rfl
    · rw [List.filter_cons_of_neg (by simpa using hq)]
      simp only [List.find?_cons]
      cases hp : p a
      · exact ih
      · exact absurd (h a hp) hq

theorem slotGet_reset {s : List (Int × Option Nat)} {lvl k : Int} (h : k ≤ lvl) :
    slotGet (resetStackBelow s lvl) k = slotGet s k := by
  unfold slotGet resetStackBelow
  rw [find?_filter_imp]
  intro x hx
  have : x.1 = k := by simpa using hx
  simpa [this] using h

/-! ## stackWF preservation lemmas -/

theorem stackWF_trans {a a' : List HNode} {s : List (Int × Option Nat)}
    (h : stackWF a s)
    (hpre : ∀ (i : Nat) (n : HNode), a[i]? = some n →
      ∃ n' : HNode, a'[i]? = some n' ∧ n'.level = n.level) :
    stackWF a' s := by
  intro p hp i hpi
  rcases h p hp i hpi with ⟨n, hn, hl⟩
  rcases hpre i n hn with ⟨n', hn', hl'⟩
  exact ⟨n', hn', hl' ▸ hl⟩

theorem stackWF_push {a : List HNode} {m : HNode} {s : List (Int × Option Nat)}
    (h : stackWF a s) : stackWF (a ++ [m]) s :=
  stackWF_trans h (fun i n hn => ⟨n, push_keep_get i n hn, rfl⟩)

theorem stackWF_modify_keep {a : List HNode} {i : Nat} {f : HNode → HNode}
    {s : List (Int × Option Nat)} (hf : ∀ n, (f n).level = n.level) (h : stackWF a s) :
    stackWF (modifyNode a i f) s :=
  stackWF_trans h (fun j n hn => modify_keep_get hf j n hn)

theorem stackWF_slotSet {a : List HNode} {s : List (Int × Option Nat)} {k : Int}
    {v : Option Nat} (h : stackWF a s)
    (hv : ∀ i, v = some i → ∃ n, a[i]? = some n ∧ n.level = k) :
    stackWF a (slotSet s k v) := by
  intro p hp i hpi
  rcases mem_slotSet hp with rfl | hp'
  · exact hv i hpi
  · exact h p hp' i hpi

theorem stackWF_filter {a : List HNode} {s : List (Int × Option Nat)}
    (h : stackWF a s) (q : Int × Option Nat → Bool) : stackWF a (s.filter q) :=
  fun p hp => h p (List.mem_filter.mp hp).1

/-! ## Parent-lookup lemmas -/

theorem slotGet_mem {s : List (Int × Option Nat)} {k : Int} {v : Option Nat}
    (h : slotGet s k = some v) : (k, v) ∈ s := by
  unfold slotGet at h
  revert h
  split
  · rename_i p hp
    intro h
    have hk : p.1 = k := by simpa using List.find?_some hp
    have hv : p.2 = v := by simpa using h
    have : p = (k, v) := Prod.ext hk hv
    exact this ▸ List.mem_of_find?_eq_some hp
  · intro h
    cases h

theorem findParentIdx_spec {a : List HNode} {s : List (Int × Option Nat)} {childLevel : Int}
    (hwf : stackWF a s) (hroot : slotGet s 0 = some (some 0))
    (hcl : 1 ≤ childLevel) :
    ∃ np, a[(findParentIdx s childLevel)]? = some np ∧ np.level < childLevel := by
  rcases hfind : List.find? (fun p => decide (p.1 < childLevel) && p.2.isSome) s with _ | p
  · exfalso
    have hmem : ((0 : Int), some (0 : Nat)) ∈ s := slotGet_mem hroot
    have := List.find?_eq_none.mp hfind _ hmem
    simp only [Bool.and_eq_true, decide_eq_true_eq, Option.isSome_some, and_true] at this
    omega
  · have hpred := List.find?_some hfind
    have hmem := List.mem_of_find?_eq_some hfind
    simp only [Bool.and_eq_true, decide_eq_true_eq, Option.isSome_iff_exists] at hpred
    rcases hpred with ⟨hlt, i, hi⟩
    rcases p with ⟨k, v⟩
    simp only at hi
    subst hi
    rcases hwf _ hmem i rfl with ⟨n, hn, hl⟩
    refine ⟨n, ?_, by rw [hl]; exact hlt⟩
    unfold findParentIdx
    rw [hfind]
    exact hn

theorem findParentForSpecialIdx_spec {a : List HNode} {s : List (Int × Option Nat)} {j : Nat}
    (hwf : stackWF a s) (hroot : slotGet s 0 = some (some 0))
    (htop : slotGet s (maxKey s) = some (some j)) (hmk : 0 < maxKey s) :
    ∃ np nj, a[(findParentForSpecialIdx s)]? = some np ∧ a[j]? = some nj ∧
      np.level < nj.level := by
  have htopmem : (maxKey s, some j) ∈ s := slotGet_mem htop
  rcases hwf _ htopmem j rfl with ⟨nj, hnj, hlj⟩
  rcases hfind : List.find? (fun p => decide (p.1 < maxKey s) && p.2.isSome) s with _ | p
  · exfalso
    have hmem : ((0 : Int), some (0 : Nat)) ∈ s := slotGet_mem hroot
    have := List.find?_eq_none.mp hfind _ hmem
    simp only [Bool.and_eq_true, decide_eq_true_eq, Option.isSome_some, and_true] at this
    omega
  · have hpred := List.find?_some hfind
    have hmem := List.mem_of_find?_eq_some hfind
    simp only [Bool.and_eq_true, decide_eq_true_eq, Option.isSome_iff_exists] at hpred
    rcases hpred with ⟨hlt, i, hi⟩
    rcases p with ⟨k, v⟩
    simp only at hi
    subst hi
    rcases hwf _ hmem i rfl with ⟨n, hn, hl⟩
    refine ⟨n, nj, ?_, hnj, by rw [hl, hlj]; exact hlt⟩
    simp only [findParentForSpecialIdx]
    rw [hfind]
    exact hn

/-! ## Matcher classification lemma -/

/-- Every successful `PatternMatcher.matchText` result is either the inline
special pattern (in which case the special pattern matched the trimmed
fragment) or a structural marker with level ≥ 1 (and an Article has level 5). -/
theorem matchText_cases {content : String} {mi : MatchInfo}
    (h : PatternMatcher.matchText content = some mi) :
    (mi.type = "special" ∧ matchSpecialAt (trimCh content.data) ≠ none) ∨
    (mi.type ≠ "special" ∧ 1 ≤ mi.level ∧ (mi.type = "조" → mi.level = 5)) := by
  simp only [PatternMatcher.matchText] at h
  repeat' split at h
  all_goals cases h
  all_goals simp_all [LEVEL_PYEON, LEVEL_JANG, LEVEL_JEOL, LEVEL_GWAN, LEVEL_JO,
    LEVEL_HANG, LEVEL_HO, LEVEL_MOK, LEVEL_SEMOK, LEVEL_DASH]

/-! ## Composite invariant-preservation lemmas -/

/-- Creating a fresh node (with no children) and appending it as a child of an
existing node preserves the builder invariant, provided the new edge satisfies
the level rule; the new node sits at index `a.length`, and all old indices
keep their levels. -/
theorem ArenaStackOk_createChild {a : List HNode} {s : List (Int × Option Nat)}
    {p : Nat} {n np : HNode}
    (h : ArenaStackOk a s) (hp : a[p]? = some np)
    (hok : n.type = "special" ∨ np.level + 1 ≤ n.level)
    (hch : n.children = []) :
    ArenaStackOk (appendChildIdx (a ++ [n]) p a.length) s ∧
      (appendChildIdx (a ++ [n]) p a.length)[a.length]? = some n ∧
      (∀ (j : Nat) (m : HNode), a[j]? = some m →
        ∃ m', (appendChildIdx (a ++ [n]) p a.length)[j]? = some m' ∧ m'.level = m.level) := by
  obtain ⟨he, hwf, hroot, hslot⟩ := h
  have hplen : p < a.length := (List.getElem?_eq_some_iff.mp hp).1
  have hpc : p ≠ a.length := Nat.ne_of_lt hplen
  have hfl : ∀ m : HNode, ({ m with children := m.children ++ [a.length] } : HNode).level
      = m.level := fun _ => rfl
  have hget : (a ++ [n])[a.length]? = some n := List.getElem?_concat_length a n
  have hkeep : ∀ (j : Nat) (m : HNode), a[j]? = some m →
      ∃ m', (appendChildIdx (a ++ [n]) p a.length)[j]? = some m' ∧ m'.level = m.level := by
    intro j m hj
    exact modify_keep_get hfl j m (push_keep_get j m hj)
  have hself : (appendChildIdx (a ++ [n]) p a.length)[a.length]? = some n := by
    unfold appendChildIdx
    rw [modifyNode_get_ne _ hpc]
    exact hget
  refine ⟨⟨?_, ?_, ?_, hslot⟩, hself, hkeep⟩
  · refine EdgeOk_appendChild (EdgeOk_push he hch) hpc ?_
    intro np' hnp'
    have : np' = np := by
      rw [push_keep_get p np hp] at hnp'
      exact (Option.some.injEq _ _ ▸ hnp').symm
    subst this
    exact ⟨n, hget, hok⟩
  · exact stackWF_modify_keep hfl (stackWF_push hwf)
  · rcases hroot with ⟨n0, hn0, hl0⟩
    rcases hkeep 0 n0 hn0 with ⟨n0', hn0', hl0'⟩
    exact ⟨n0', hn0', hl0' ▸ hl0⟩

/-- Deleting all stack keys above a nonnegative level preserves the invariant. -/
theorem ArenaStackOk_reset {a : List HNode} {s : List (Int × Option Nat)} {lvl : Int}
    (h : ArenaStackOk a s) (hl : 0 ≤ lvl) : ArenaStackOk a (resetStackBelow s lvl) := by
  obtain ⟨he, hwf, hroot, hslot⟩ := h
  exact ⟨he, stackWF_filter hwf _, hroot, by rw [slotGet_reset hl]; exact hslot⟩

/-- `_ensure_hang_exists` preserves the invariant: the implicit paragraph is a
level-6 child of the level-5 article in the slot. -/
theorem ensureHang_ok {a : List HNode} {s : List (Int × Option Nat)} {page : Nat}
    {a' : List HNode} {s' : List (Int × Option Nat)}
    (hm : ensureHangExists a s page = (a', s')) (h : ArenaStackOk a s) :
    ArenaStackOk a' s' := by
  unfold ensureHangExists at hm
  simp only [pushNode] at hm
  split at hm
  · rename_i joIdx h5
    split at hm
    · injection hm with hma hms
      subst hma
      subst hms
      rcases h.2.1 _ (slotGet_mem h5) joIdx rfl with ⟨jn, hjn, hl5⟩
      obtain ⟨⟨he', hwf', hroot', hslot'⟩, hself, _⟩ :=
        @ArenaStackOk_createChild a s joIdx
          { id := nodeIdAt a joIdx ++ ".①", type := "항", level := LEVEL_HANG,
            number := some 1, marker := "①", title := "(자동생성)", content := "",
            page := page, children := [], references := [],
            metadata := [("auto_generated", MetaVal.bool true)] }
          jn h hjn (Or.inr (by rw [hl5]; simp [LEVEL_JO, LEVEL_HANG])) rfl
      refine ⟨he', stackWF_slotSet hwf' ?_, hroot', ?_⟩
      · intro i hi
        cases hi
        exact ⟨_, hself, rfl⟩
      · rw [slotGet_slotSet_ne (by decide : (LEVEL_HANG : Int) ≠ 0)]
        exact hslot'
    · injection hm with hma hms
      subst hma
      subst hms
      exact h
  · injection hm with hma hms
    subst hma
    subst hms
    exact h

/-- The per-type dispatch of `_manage_context` preserves the invariant (the
matched level is ≥ 1). -/
theorem manageContextCore_ok {a : List HNode} {s : List (Int × Option Nat)}
    {ln : List (Int × Nat)} {ty : String} {lvl : Int} {num : Option Nat} {page : Nat}
    {a1 : List HNode} {s1 : List (Int × Option Nat)} {ln1 : List (Int × Nat)}
    (hm : manageContextCore a s ln ty lvl num page = (a1, s1, ln1))
    (h : ArenaStackOk a s) (hlvl : 1 ≤ lvl) : ArenaStackOk a1 s1 := by
  unfold manageContextCore at hm
  split at hm
  · injection hm with h₁ h₂
    injection h₂ with h₂ h₃
    subst h₁
    subst h₂
    exact ArenaStackOk_reset h (by omega)
  · split at hm
    · injection hm with h₁ h₂
      injection h₂ with h₂ h₃
      subst h₁
      subst h₂
      exact ArenaStackOk_reset h (by decide)
    · split at hm
      · split at hm
        · rcases hens : ensureHangExists a s page with ⟨ae, se⟩
          simp only [hens] at hm
          injection hm with h₁ h₂
          injection h₂ with h₂ h₃
          subst h₁
          subst h₂
          exact ArenaStackOk_reset (ensureHang_ok hens h) (by decide)
        · rcases hens : ensureHangExists a s page with ⟨ae, se⟩
          simp only [hens] at hm
          injection hm with h₁ h₂
          injection h₂ with h₂ h₃
          subst h₁
          subst h₂
          exact ensureHang_ok hens h
      · split at hm
        · split at hm
          · injection hm with h₁ h₂
            injection h₂ with h₂ h₃
            subst h₁
            subst h₂
            exact ArenaStackOk_reset h (by decide)
          · injection hm with h₁ h₂
            injection h₂ with h₂ h₃
            subst h₁
            subst h₂
            exact h
        · split at hm
          · split at hm
            · injection hm with h₁ h₂
              injection h₂ with h₂ h₃
              subst h₁
              subst h₂
              exact ArenaStackOk_reset h (by decide)
            · injection hm with h₁ h₂
              injection h₂ with h₂ h₃
              subst h₁
              subst h₂
              exact h
          · injection hm with h₁ h₂
            injection h₂ with h₂ h₃
            subst h₁
            subst h₂
            exact h

/-- `_manage_context` preserves the invariant (the matched level is ≥ 1). -/
theorem manageContext_ok {a : List HNode} {s : List (Int × Option Nat)}
    {ln : List (Int × Nat)} {ty : String} {lvl : Int} {num : Option Nat} {page : Nat}
    {a1 : List HNode} {s1 : List (Int × Option Nat)} {ln1 : List (Int × Nat)}
    (hm : manageContext a s ln ty lvl num page = (a1, s1, ln1))
    (h : ArenaStackOk a s) (hlvl : 1 ≤ lvl) : ArenaStackOk a1 s1 := by
  unfold manageContext at hm
  rcases hcore : manageContextCore a s ln ty lvl num page with ⟨ac, sc, lnc⟩
  simp only [hcore] at hm
  have hc : ArenaStackOk ac sc := manageContextCore_ok hcore h hlvl
  split at hm
  · split at hm
    · split at hm
      · rcases hens : ensureHangExists ac sc page with ⟨ae, se⟩
        simp only [hens] at hm
        injection hm with h₁ h₂
        injection h₂ with h₂ h₃
        subst h₁
        subst h₂
        exact ensureHang_ok hens hc
      · injection hm with h₁ h₂
        injection h₂ with h₂ h₃
        subst h₁
        subst h₂
        exact hc
    · injection hm with h₁ h₂
      injection h₂ with h₂ h₃
      subst h₁
      subst h₂
      exact hc
  · injection hm with h₁ h₂
    injection h₂ with h₂ h₃
    subst h₁
    subst h₂
    exact hc

theorem ArenaStackOk_modify_keep {a : List HNode} {s : List (Int × Option Nat)} {i : Nat}
    {f : HNode → HNode}
    (hf : ∀ n, (f n).level = n.level ∧ (f n).type = n.type ∧ (f n).children = n.children)
    (h : ArenaStackOk a s) : ArenaStackOk (modifyNode a i f) s := by
  obtain ⟨he, hwf, hroot, hslot⟩ := h
  refine ⟨EdgeOk_modify_keep hf he, stackWF_modify_keep (fun n => (hf n).1) hwf, ?_, hslot⟩
  rcases hroot with ⟨n0, hn0, hl0⟩
  rcases modify_keep_get (fun n => (hf n).1) 0 n0 hn0 with ⟨n0', hn0', hl0'⟩
  exact ⟨n0', hn0', hl0' ▸ hl0⟩

theorem ArenaStackOk_appendContent {a : List HNode} {s : List (Int × Option Nat)}
    {i : Nat} {txt : String} (h : ArenaStackOk a s) :
    ArenaStackOk (appendContentNL a i txt) s :=
  ArenaStackOk_modify_keep (fun _ => ⟨rfl, rfl, rfl⟩) h

theorem ArenaStackOk_appendRefs {a : List HNode} {s : List (Int × Option Nat)}
    {i : Nat} {rs : List Reference} (h : ArenaStackOk a s) :
    ArenaStackOk (appendRefsAt a i rs) s :=
  ArenaStackOk_modify_keep (fun _ => ⟨rfl, rfl, rfl⟩) h

theorem ArenaStackOk_slotSetNone {a : List HNode} {s : List (Int × Option Nat)} {k : Int}
    (h : ArenaStackOk a s) (hk : k ≠ 0) : ArenaStackOk a (slotSet s k none) :=
  ⟨h.1, stackWF_slotSet h.2.1 (fun i hi => by cases hi), h.2.2.1,
   by rw [slotGet_slotSet_ne hk]; exact h.2.2.2⟩

/-- Creating a child node and recording it at its level's stack slot. -/
theorem ArenaStackOk_createChildSlot {a : List HNode} {s : List (Int × Option Nat)}
    {p : Nat} {n np : HNode} {K : Int}
    (h : ArenaStackOk a s) (hp : a[p]? = some np)
    (hok : n.type = "special" ∨ np.level + 1 ≤ n.level)
    (hch : n.children = []) (hK : n.level = K) (hK0 : K ≠ 0) :
    ArenaStackOk (appendChildIdx (a ++ [n]) p a.length) (slotSet s K (some a.length)) ∧
      (appendChildIdx (a ++ [n]) p a.length)[a.length]? = some n := by
  obtain ⟨⟨he', hwf', hroot', hslot'⟩, hself, _⟩ := ArenaStackOk_createChild h hp hok hch
  refine ⟨⟨he', stackWF_slotSet hwf' ?_, hroot', ?_⟩, hself⟩
  · intro i hi
    cases hi
    exact ⟨n, hself, hK⟩
  · rw [slotGet_slotSet_ne hK0]
    exact hslot'

theorem findParentForSpecialIdx_valid {a : List HNode} {s : List (Int × Option Nat)}
    (hwf : stackWF a s) (hroot0 : slotGet s 0 = some (some 0))
    (h0 : ∃ n0, a[0]? = some n0 ∧ n0.level = 0) :
    ∃ np, a[(findParentForSpecialIdx s)]? = some np := by
  rcases hfind : List.find? (fun p => decide (p.1 < maxKey s) && p.2.isSome) s with _ | p
  · simp only [findParentForSpecialIdx]
    rw [hfind, hroot0]
    rcases h0 with ⟨n0, hn0, _⟩
    exact ⟨n0, hn0⟩
  · have hpred := List.find?_some hfind
    have hmem := List.mem_of_find?_eq_some hfind
    simp only [Bool.and_eq_true, decide_eq_true_eq, Option.isSome_iff_exists] at hpred
    rcases hpred with ⟨_, i, hi⟩
    rcases p with ⟨k, v⟩
    simp only at hi
    subst hi
    rcases hwf _ hmem i rfl with ⟨n, hn, _⟩
    refine ⟨n, ?_⟩
    simp only [findParentForSpecialIdx]
    rw [hfind]
    exact hn

/-- The normal (non-special-mode) step preserves the builder invariant. -/
theorem normalStep_ok {cfg : ExtCfg} {secName : String} {st : PState}
    {cs : List Char} {content : String} {page : Nat}
    (h : ArenaStackOk st.arena st.stack) :
    ArenaStackOk (DocumentParser.normalStep cfg secName st cs content page).arena
      (DocumentParser.normalStep cfg secName st cs content page).stack := by
  unfold DocumentParser.normalStep
  cases hmt : PatternMatcher.matchText content with
  | none =>
    simp only [pushNode]
    split
    · split
      · exact ArenaStackOk_appendContent h
      · exact h
    · split
      · rename_i joIdx h5
        split
        · rcases h.2.1 _ (slotGet_mem h5) joIdx rfl with ⟨jn, hjn, hl5⟩
          exact (ArenaStackOk_createChildSlot h hjn
            (Or.inr (by rw [hl5]; simp [LEVEL_JO, LEVEL_HANG])) rfl rfl
            (show (LEVEL_HANG : Int) ≠ 0 by decide)).1
        · split
          · split
            · exact ArenaStackOk_appendRefs (ArenaStackOk_appendContent h)
            · exact h
          · exact h
      · split
        · split
          · exact ArenaStackOk_appendContent h
          · exact h
        · exact h
  | some mi =>
    simp only [pushNode]
    split
    · -- inline special
      rcases findParentForSpecialIdx_valid h.2.1 h.2.2.2 h.2.2.1 with ⟨np, hnp⟩
      exact (ArenaStackOk_createChild h hnp (Or.inl rfl) rfl).1
    · -- structural node
      rename_i hns
      have hcl : 1 ≤ mi.level ∧ (mi.type = "조" → mi.level = 5) := by
        rcases matchText_cases hmt with ⟨hsp, _⟩ | ⟨_, h1, h2⟩
        · exact absurd hsp hns
        · exact ⟨h1, h2⟩
      rcases hmc : manageContext st.arena st.stack st.lastNumbers mi.type mi.level mi.number page
        with ⟨a1, s1, ln1⟩
      simp only [hmc]
      have h1 : ArenaStackOk a1 s1 := manageContext_ok hmc h hcl.1
      rcases findParentIdx_spec h1.2.1 h1.2.2.2 hcl.1 with ⟨np, hnp, hlt⟩
      split
      · -- Article: paragraph slot cleared, possibly an implicit paragraph
        rename_i hjo
        split
        · -- non-empty glued body: implicit paragraph 1
          have hok1 : np.level + 1 ≤ mi.level := by omega
          have hk1 : mi.level ≠ 0 := by omega
          refine (ArenaStackOk_createChildSlot
            (ArenaStackOk_slotSetNone
              ((ArenaStackOk_createChildSlot h1 hnp (Or.inr hok1) rfl rfl hk1).1)
              (by decide : (LEVEL_HANG : Int) ≠ 0))
            ((ArenaStackOk_createChildSlot h1 hnp (Or.inr hok1) rfl rfl hk1).2)
            (Or.inr ?_) rfl rfl (show (LEVEL_HANG : Int) ≠ 0 by decide)).1
          show mi.level + 1 ≤ (LEVEL_HANG : Int)
          rw [hcl.2 hjo]
          decide
        · have hok1 : np.level + 1 ≤ mi.level := by omega
          have hk1 : mi.level ≠ 0 := by omega
          exact ArenaStackOk_slotSetNone
            ((ArenaStackOk_createChildSlot h1 hnp (Or.inr hok1) rfl rfl hk1).1)
            (by decide : (LEVEL_HANG : Int) ≠ 0)
      · have hok1 : np.level + 1 ≤ mi.level := by omega
        have hk1 : mi.level ≠ 0 := by omega
        exact (ArenaStackOk_createChildSlot h1 hnp (Or.inr hok1) rfl rfl hk1).1

/-- Creating a child node and then resetting the stack from a nonnegative
level (the global-special path). -/
theorem ArenaStackOk_createChild_reset {a : List HNode} {s : List (Int × Option Nat)}
    {p : Nat} {n np : HNode} {lvl : Int}
    (h : ArenaStackOk a s) (hp : a[p]? = some np)
    (hok : n.type = "special" ∨ np.level + 1 ≤ n.level) (hch : n.children = [])
    (hl : 0 ≤ lvl) :
    ArenaStackOk (appendChildIdx (a ++ [n]) p a.length) (resetStackBelow s lvl) := by
  have hc := ArenaStackOk_createChild h hp hok hch
  exact ⟨hc.1.1, stackWF_filter hc.1.2.1 _, hc.1.2.2.1,
    by rw [slotGet_reset hl]; exact hc.1.2.2.2⟩

/-- One loop iteration of `_parse_section` preserves the builder invariant. -/
theorem parseStep_ok {cfg : ExtCfg} {secName : String} {st : PState} {b : Block}
    (h : ArenaStackOk st.arena st.stack) :
    ArenaStackOk (DocumentParser.parseStep cfg secName st b).arena
      (DocumentParser.parseStep cfg secName st b).stack := by
  unfold DocumentParser.parseStep
  simp only [pushNode]
  split
  · exact h
  · split
    · -- global special block
      rcases h.2.2.1 with ⟨n0, hn0, _⟩
      exact ArenaStackOk_createChild_reset h hn0 (Or.inl rfl) rfl
        (by decide : (0 : Int) ≤ LEVEL_SECTION)
    · split
      · split
        · split
          · split
            · exact normalStep_ok h
            · exact ArenaStackOk_appendContent h
          · split
            · exact normalStep_ok h
            · exact ArenaStackOk_appendContent h
        · exact normalStep_ok h
      · exact normalStep_ok h

theorem parseFold_ok (cfg : ExtCfg) (secName : String) (blocks : List Block)
    (st : PState) (h : ArenaStackOk st.arena st.stack) :
    ArenaStackOk (blocks.foldl (DocumentParser.parseStep cfg secName) st).arena
      (blocks.foldl (DocumentParser.parseStep cfg secName) st).stack := by
  induction blocks generalizing st with
  | nil => exact h
  | cons b bs ih => exact ih _ (parseStep_ok h)

/-- The full section parse maintains the builder invariant. -/
theorem parseSection_ok (cfg : ExtCfg) (secName : String) (blocks : List Block) :
    ArenaStackOk (DocumentParser.parseSection cfg secName blocks).arena
      (DocumentParser.parseSection cfg secName blocks).stack := by
  unfold DocumentParser.parseSection
  apply parseFold_ok
  refine ⟨?_, ?_, ?_, rfl⟩
  · intro n hn j hj
    simp only [List.mem_singleton] at hn
    subst hn
    simp at hj
  · intro p hp i hpi
    simp only [List.mem_singleton] at hp
    subst hp
    have : i = 0 := by simpa using hpi.symm
    subst this
    exact ⟨_, rfl, rfl⟩
  · exact ⟨_, rfl, rfl⟩

/-! ## Helper lemmas for the claim theorems -/

theorem stackWF_of_b {a : List HNode} {s : List (Int × Option Nat)}
    (h : stackWFb a s = true) : stackWF a s := by
  intro p hp i hpi
  have hall := List.all_eq_true.mp h p hp
  rw [hpi] at hall
  simp only [] at hall
  cases ha : a[i]? with
  | none =>
    rw [ha] at hall
    exact absurd hall (by simp)
  | some n =>
    rw [ha] at hall
    exact ⟨n, rfl, eq_of_beq (by simpa using hall)⟩

theorem mem_hangOnlyStep {r : Reference} {sid : String} {jo : Nat} {cs : List Char}
    {acc : List Reference} {f : Found Nat} (h : r ∈ acc) :
    r ∈ hangOnlyStep sid jo cs acc f := by
  simp only [hangOnlyStep]
  split
  · exact h
  · split
    · exact h
    · exact List.mem_append.mpr (Or.inl h)

theorem mem_hangOnlyFold {r : Reference} {sid : String} {jo : Nat} {cs : List Char}
    {l : List (Found Nat)} {acc : List Reference} (h : r ∈ acc) :
    r ∈ l.foldl (hangOnlyStep sid jo cs) acc := by
  induction l generalizing acc with
  | nil => exact h
  | cons f fs ih => exact ih (mem_hangOnlyStep h)

theorem dropWhile_append_single {p : Char → Bool} {c : Char} (hc : p c = false)
    (l : List Char) : ∃ z, List.dropWhile p (l ++ [c]) = z ++ [c] := by
  induction l with
  | nil => exact ⟨[], by simp [List.dropWhile_cons, hc]⟩
  | cons a t ih =>
    by_cases ha : p a = true
    · rcases ih with ⟨z, hz⟩
      exact ⟨z, by simp only [List.cons_append, List.dropWhile_cons, ha, if_true]; exact hz⟩
    · exact ⟨a :: t, by simp [List.dropWhile_cons, ha]⟩

/-- Trimming keeps a non-whitespace head character. -/
theorem trimCh_cons_not_ws {c : Char} (hc : isWS c = false) (r : List Char) :
    ∃ ys, trimCh (c :: r) = c :: ys := by
  unfold trimCh
  rw [List.dropWhile_cons]
  simp only [hc, Bool.false_eq_true, if_false]
  rw [List.reverse_cons]
  rcases dropWhile_append_single hc r.reverse with ⟨z, hz⟩
  rw [hz, List.reverse_append]
  exact ⟨z.reverse, by simp⟩

theorem matchSpecialAt_je (ys : List Char) : matchSpecialAt ('제' :: ys) = none := rfl

theorem endsGlobalSpecial_head {cs : List Char} (h : endsGlobalSpecial cs = true) :
    ∃ r, cs = '제' :: r := by
  unfold endsGlobalSpecial at h
  split at h
  · rename_i r1
    exact ⟨r1, rfl⟩
  · cases h

theorem matchText_ne_nil {content : String} {mi : MatchInfo}
    (h : PatternMatcher.matchText content = some mi) : trimCh content.data ≠ [] := by
  intro hc
  simp [PatternMatcher.matchText, hc] at h

/-- If the matched fragment is not an inline special, `normalStep` leaves the
special-mode flag off. -/
theorem normalStep_flags {cfg : ExtCfg} {secName : String} {st : PState}
    {cs : List Char} {content : String} {page : Nat}
    (hin : st.inSpecial = false)
    (hsp : ∀ mi, PatternMatcher.matchText content = some mi → mi.type ≠ "special") :
    (DocumentParser.normalStep cfg secName st cs content page).inSpecial = false := by
  unfold DocumentParser.normalStep
  cases hmt : PatternMatcher.matchText content with
  | none =>
    simp only [pushNode]
    split
    · split
      · exact hin
      · exact hin
    · split
      · split
        · exact hin
        · split
          · split
            · exact hin
            · exact hin
          · exact hin
      · split
        · split
          · exact hin
          · exact hin
        · exact hin
  | some mi =>
    simp only [pushNode]
    split
    · rename_i hty
      exact absurd hty (hsp mi hmt)
    · rcases hmc : manageContext st.arena st.stack st.lastNumbers mi.type mi.level mi.number page
        with ⟨a1, s1, ln1⟩
      simp only [hmc]
      split
      · split
        · exact hin
        · exact hin
      · exact hin

/-- Anything in passes 1–2 of `extract` survives pass 3. -/
theorem extract_append_pass3 (cfg : ExtCfg) (content sourceId : String) (jo : Option Nat)
    {r : Reference}
    (h : r ∈ extractPass1 cfg content sourceId ++ extractPass2 cfg content sourceId) :
    r ∈ ReferenceExtractor.extract cfg content sourceId jo := by
  unfold ReferenceExtractor.extract
  rcases jo with _ | joN
  · exact h
  · by_cases hj0 : joN = 0
    · subst hj0
      exact h
    · simp only [if_neg hj0]
      exact mem_hangOnlyFold h

/-- Outside special mode, a non-empty fragment that is no global-special
trigger is handled by `normalStep`. -/
theorem parseStep_prose_normal {cfg : ExtCfg} {nm : String} {st : PState} {b : Block}
    (hin : st.inSpecial = false)
    (hne : trimCh b.content.data ≠ [])
    (hgs : checkGlobalSpecial (trimCh b.content.data) = none) :
    DocumentParser.parseStep cfg nm st b =
      DocumentParser.normalStep cfg nm st (trimCh b.content.data)
        (String.mk (trimCh b.content.data)) b.page := by
  have hemp : (trimCh b.content.data).isEmpty = false := by simpa using hne
  unfold DocumentParser.parseStep
  simp only [hemp, Bool.false_eq_true, if_false, hgs]
  cases hsc : st.curSpecial with
  | none => rfl
  | some ci => simp only [hin, Bool.false_eq_true, if_false]

/-! ## Claim theorems -/

/-- C1 (counterexample): it is not the case that `ReferenceExtractor.extract`
emits an Internal reference for every internal-pattern (`제N조`-shaped) match
whose span does not overlap an already-*accepted* external match. In
`"약관법 제5조에 따라 보상한다"` the single external-pattern match is discarded
(its law name contains `약관`), so no external match is accepted, yet the
`제5조` occurrence inside the discarded span yields no Internal reference:
`extract` returns the empty list. -/
theorem C1_counterexample :
    ¬ ∀ (cfg : ExtCfg) (content sourceId : String) (jo : Option Nat) (f : Found IntMatch),
        f ∈ findIterAux matchInternalAt content.data 0 →
        (∀ g ∈ findIterAux (matchExternalAt (cfg.laws.map String.data)) content.data 0,
          (!((!cfg.docName.data.isEmpty && containsSub g.payload.law cfg.docName.data)
              || containsSub g.payload.law ['약', '관'])) = true →
          ¬ (g.start ≤ f.start ∧ f.start < g.stop)) →
        ∃ r ∈ ReferenceExtractor.extract cfg content sourceId jo,
          r.ref_type = "internal" ∧ r.target_jo = some f.payload.jo := by
  intro hclaim
  have := hclaim emptyCfg c1Text "s" none c1Found (by decide) (by decide)
  revert this
  decide

/-- C1 (amended): `ReferenceExtractor.extract` emits an Internal reference for
every internal-pattern match whose start position lies inside *no*
external-pattern match span at all — accepted or discarded: the span list used
for the overlap test is built from every `re_external` match, before the
self-reference discards. -/
theorem C1_internal_extraction (cfg : ExtCfg) (content sourceId : String) (jo : Option Nat)
    (f : Found IntMatch)
    (hf : f ∈ findIterAux matchInternalAt content.data 0)
    (hov : ∀ g ∈ findIterAux (matchExternalAt (cfg.laws.map String.data)) content.data 0,
      ¬ (g.start ≤ f.start ∧ f.start < g.stop)) :
    internalRefOf sourceId f ∈ ReferenceExtractor.extract cfg content sourceId jo := by
  have hcond : intRefCond cfg content f = false := by
    unfold intRefCond
    rw [Bool.eq_false_iff]
    intro hc
    rcases List.any_eq_true.mp hc with ⟨sp, hsp, hp⟩
    rcases List.mem_map.mp hsp with ⟨g, hg, rfl⟩
    simp only [Bool.and_eq_true, decide_eq_true_eq] at hp
    exact hov g hg ⟨hp.1, hp.2⟩
  have hmem2 : internalRefOf sourceId f ∈ extractPass2 cfg content sourceId := by
    unfold extractPass2
    refine List.mem_filterMap.mpr ⟨f, hf, ?_⟩
    rw [hcond]
    simp
  exact extract_append_pass3 cfg content sourceId jo (List.mem_append.mpr (Or.inr hmem2))

/-- C1 (witness): a plain internal citation with no external match around it
is extracted. -/
theorem C1_witness :
    internalRefOf "s" c1wFound ∈ ReferenceExtractor.extract emptyCfg c1wText "s" none :=
  C1_internal_extraction emptyCfg c1wText "s" none c1wFound (by decide) (by decide)

/-- C2 (counterexample): it is not the case that, while the builder is in
global special mode, only a fragment matched by the §4.1 matcher as
Article-or-higher ends the mode. The fragment `"제1조에 따라 적용합니다"` is
rejected by the reference-sentence guard (`PatternMatcher.matchText` returns
`none`), yet it ends the mode. -/
theorem C2_counterexample :
    ¬ ∀ (cfg : ExtCfg) (nm : String) (st : PState) (b : Block) (ci : Nat),
        st.inSpecial = true → st.curSpecial = some ci → metaGlobal st.arena ci = true →
        checkGlobalSpecial (trimCh b.content.data) = none →
        PatternMatcher.matchText (String.mk (trimCh b.content.data)) = none →
        (DocumentParser.parseStep cfg nm st b).inSpecial = true := by
  intro hclaim
  have := hclaim emptyCfg "본문" c2State c2Block 1 (by decide) (by decide) (by decide)
    (by decide) (by decide)
  revert this
  decide

/-- C2 (amended): while the builder is in global special mode, a non-empty
fragment that is not itself a global-special trigger ends the mode if and only
if it matches the raw prefix pattern `제\s*\d+\s*(조|관|장|절|편)` — a weaker
test than the §4.1 matcher that ignores the reference-sentence guard, so a
fragment that merely begins with an Article-looking reference phrase does end
the mode; every fragment that does not end the mode is appended
(newline-joined) to the open Special node's text. -/
theorem C2_global_special_end (cfg : ExtCfg) (nm : String) (st : PState) (b : Block) (ci : Nat)
    (hin : st.inSpecial = true) (hcsp : st.curSpecial = some ci)
    (hgl : metaGlobal st.arena ci = true)
    (hne : trimCh b.content.data ≠ [])
    (hgs : checkGlobalSpecial (trimCh b.content.data) = none) :
    (endsGlobalSpecial (trimCh b.content.data) = true →
      (DocumentParser.parseStep cfg nm st b).inSpecial = false) ∧
    (endsGlobalSpecial (trimCh b.content.data) = false →
      DocumentParser.parseStep cfg nm st b =
        { st with arena := appendContentNL st.arena ci (String.mk (trimCh b.content.data)) }) := by
  have hemp : (trimCh b.content.data).isEmpty = false := by
    simpa using hne
  constructor
  · intro hend
    unfold DocumentParser.parseStep
    simp only [hemp, Bool.false_eq_true, if_false, hgs, hcsp, hin, if_true, hgl, hend]
    apply normalStep_flags rfl
    intro mi hmi
    rcases matchText_cases hmi with ⟨hty, hsp⟩ | ⟨hty, _⟩
    · exfalso
      rcases endsGlobalSpecial_head hend with ⟨r, hr⟩
      rcases @trimCh_cons_not_ws '제' (by decide) r with ⟨ys, hys⟩
      apply hsp
      show matchSpecialAt (trimCh (trimCh b.content.data)) = none
      rw [hr, hys]
      exact matchSpecialAt_je ys
    · exact hty
  · intro hend
    unfold DocumentParser.parseStep
    simp only [hemp, Bool.false_eq_true, if_false, hgs, hcsp, hin, if_true, hgl, hend]

/-- C2 (witness): a prose continuation fragment does not end the mode and is
appended to the Special node. -/
theorem C2_witness :
    DocumentParser.parseStep emptyCfg "본문" c2State c2BlockCont =
      { c2State with arena := appendContentNL c2State.arena 1 (String.mk (trimCh c2BlockCont.content.data)) } :=
  (C2_global_special_end emptyCfg "본문" c2State c2BlockCont 1 (by decide) (by decide)
    (by decide) (by decide) (by decide)).2 (by decide)

/-- C3 (counterexample): it is not the case that an inline Special node is
never appended to the children of the deepest active node. After the bare-form
Article fragment `"제1조 보험금의 지급사유"`, the stack holds the Article at
key 5 and an explicit `None` at the Paragraph key 6, so
`_find_parent_for_special` (whose "deepest" is the maximum *key*, including
the `None` slot) attaches the special `"【주의】 유의사항"` to the Article
itself — the deepest active node. -/
theorem C3_counterexample :
    ¬ ∀ (cfg : ExtCfg) (nm : String) (st : PState) (b : Block) (mi : MatchInfo) (di : Nat),
        st.inSpecial = false →
        checkGlobalSpecial (trimCh b.content.data) = none →
        PatternMatcher.matchText (String.mk (trimCh b.content.data)) = some mi →
        mi.type = "special" →
        findMostRecentIdx st.stack = some di → di ≠ 0 →
        st.arena.length ∉
          (Option.elim ((DocumentParser.parseStep cfg nm st b).arena[di]?) []
            HNode.children) := by
  intro hclaim
  exact hclaim emptyCfg "본문" c3State c3Block c3Mi 1 (by decide) (by decide) (by decide)
    (by decide) (by decide) (by decide) (by decide)

/-- C3 (amended): when the matcher classifies a fragment as an inline Special
(outside special mode, not a global trigger), the new node is appended to the
children of `_find_parent_for_special`, the deepest *occupied* slot strictly
below the maximum stack *key*. When the slot at the maximum key is itself
occupied by a node `j`, that parent is at a strictly lower level than `j`, so
the Special becomes a sibling of (never a child of) the deepest active node;
but when the maximum key's slot holds `None` (as right after an Article
cleared the Paragraph slot), the parent search can select the deepest active
node itself. -/
theorem C3_inline_special_attach (cfg : ExtCfg) (nm : String) (st : PState) (b : Block)
    (mi : MatchInfo) (j : Nat)
    (hin : st.inSpecial = false)
    (hgs : checkGlobalSpecial (trimCh b.content.data) = none)
    (hm : PatternMatcher.matchText (String.mk (trimCh b.content.data)) = some mi)
    (hty : mi.type = "special")
    (hwf : stackWFb st.arena st.stack = true)
    (hroot : slotGet st.stack 0 = some (some 0))
    (htop : slotGet st.stack (maxKey st.stack) = some (some j))
    (hmk : 0 < maxKey st.stack) :
    (DocumentParser.parseStep cfg nm st b).arena =
      appendChildIdx
        (st.arena ++ [inlineSpecialNode nm mi (String.mk (trimCh b.content.data)) b.page])
        (findParentForSpecialIdx st.stack) st.arena.length ∧
    ∃ np nj, st.arena[(findParentForSpecialIdx st.stack)]? = some np ∧
      st.arena[j]? = some nj ∧ np.level < nj.level := by
  have hne : trimCh b.content.data ≠ [] := by
    intro hc
    exact matchText_ne_nil hm (by show trimCh (trimCh b.content.data) = []; rw [hc]; rfl)
  have hemp : (trimCh b.content.data).isEmpty = false := by simpa using hne
  constructor
  · unfold DocumentParser.parseStep
    simp only [hemp, Bool.false_eq_true, if_false, hgs]
    have hnorm : (DocumentParser.normalStep cfg nm st (trimCh b.content.data)
        (String.mk (trimCh b.content.data)) b.page).arena =
        appendChildIdx
          (st.arena ++ [inlineSpecialNode nm mi (String.mk (trimCh b.content.data)) b.page])
          (findParentForSpecialIdx st.stack) st.arena.length := by
      unfold DocumentParser.normalStep
      simp only [hm, pushNode, if_pos hty]
    cases hsc : st.curSpecial with
    | none => exact hnorm
    | some ci =>
      simp only [hin, Bool.false_eq_true, if_false]
      exact hnorm
  · rcases findParentForSpecialIdx_spec (stackWF_of_b hwf) hroot htop hmk
      with ⟨np, nj, h1, h2, h3⟩
    exact ⟨np, nj, h1, h2, h3⟩

/-- C3 (witness): with a Chapter node occupying the deepest stack slot, the
inline special is appended to the section root — a sibling of the Chapter. -/
theorem C3_witness :
    (DocumentParser.parseStep emptyCfg "본문" c5State c3Block).arena =
      appendChildIdx
        (c5State.arena ++ [inlineSpecialNode "본문" c3Mi
          (String.mk (trimCh c3Block.content.data)) c3Block.page])
        (findParentForSpecialIdx c5State.stack) c5State.arena.length ∧
    ∃ np nj, c5State.arena[(findParentForSpecialIdx c5State.stack)]? = some np ∧
      c5State.arena[1]? = some nj ∧ np.level < nj.level :=
  C3_inline_special_attach emptyCfg "본문" c5State c3Block c3Mi 1 (by decide) (by decide)
    (by decide) (by decide) (by decide) (by decide) (by decide) (by decide)

/-- C4 (counterexample): parsing the single fragment
`"제2조(정의)이 계약에서 보험금이라 함은..."` creates no Article node whose
`title` is `"제2조(정의)"` — the title field holds only the parenthesized
inner text. -/
theorem C4_counterexample :
    ¬ ∃ n ∈ c4State.arena, n.type = "조" ∧ n.title = "제2조(정의)" := by
  decide

/-- C4 (amended): the fragment `"제2조(정의)이 계약에서 보험금이라 함은..."`
creates an Article node with marker `"제2조"`, title `"정의"` (the
parenthesized inner text) and content `"제2조(정의)"`, plus an implicit
Paragraph child with number 1, marker `"①"`, the auto-generated metadata flag,
and content `"이 계약에서 보험금이라 함은..."`. -/
theorem C4_implicit_paragraph :
    c4State.arena.map (fun n => (n.type, n.marker, n.title)) =
      [("section", "", "본문"), ("조", "제2조", "정의"),
       ("항", "①", "이 계약에서 보험금이라 함은...")] ∧
    c4State.arena.map (fun n => (n.content, n.number, n.children)) =
      [("", none, [1]), ("제2조(정의)", some 2, [2]),
       ("이 계약에서 보험금이라 함은...", some 1, [])] ∧
    (c4State.arena[2]?).map HNode.metadata = some [("auto_generated", MetaVal.bool true)] := by
  decide

/-- C5 (counterexample): it is not the case that every prose fragment appended
to the deepest active non-root node gets the references of its text attached.
With only a Chapter (장) active — no Article — the prose
`"제5조에 따라 보상합니다"` is appended but no reference is extracted. -/
theorem C5_counterexample :
    ¬ ∀ (cfg : ExtCfg) (nm : String) (st : PState) (b : Block) (ri : Nat),
        st.inSpecial = false →
        checkGlobalSpecial (trimCh b.content.data) = none →
        PatternMatcher.matchText (String.mk (trimCh b.content.data)) = none →
        (slotGet st.stack LEVEL_JO = none ∨ slotGet st.stack LEVEL_JO = some none) →
        findMostRecentIdx st.stack = some ri →
        nodeTypeAt st.arena ri ≠ "section" →
        ((DocumentParser.parseStep cfg nm st b).arena[ri]?).map HNode.references =
          (st.arena[ri]?).map (fun n => n.references ++
            ReferenceExtractor.extract cfg (String.mk (trimCh b.content.data))
              (nodeIdAt st.arena ri) st.curJo) := by
  intro hclaim
  have := hclaim emptyCfg "본문" c5State c5Block 1 (by decide) (by decide) (by decide)
    (Or.inl (by decide)) (by decide) (by decide)
  revert this
  decide

/-- C5 (amended): for a prose fragment (no structural match, outside special
mode, most recent active node not the section root) the two branches behave
differently. With an Article active and an open Paragraph, the fragment is
appended (newline-joined) to the deepest active non-root node and the
references extracted from its text are attached to that node and to the
global list (`proseArticleAppend`). With no Article active, the fragment is
appended to the deepest active non-root node *without* any reference
extraction: the node's references and the global reference list are
unchanged. -/
theorem C5_prose_refs_only_with_article (cfg : ExtCfg) (nm : String) (st : PState) (b : Block)
    (hin : st.inSpecial = false)
    (hne : trimCh b.content.data ≠ [])
    (hgs : checkGlobalSpecial (trimCh b.content.data) = none)
    (hm : PatternMatcher.matchText (String.mk (trimCh b.content.data)) = none) :
    (∀ joIdx ri, slotGet st.stack LEVEL_JO = some (some joIdx) →
      slotGet st.stack LEVEL_HANG ≠ none →
      slotGet st.stack LEVEL_HANG ≠ some none →
      findMostRecentIdx st.stack = some ri →
      nodeTypeAt st.arena ri ≠ "section" →
      DocumentParser.parseStep cfg nm st b =
        proseArticleAppend cfg st ri (String.mk (trimCh b.content.data))) ∧
    (∀ ri, (slotGet st.stack LEVEL_JO = none ∨ slotGet st.stack LEVEL_JO = some none) →
      findMostRecentIdx st.stack = some ri →
      nodeTypeAt st.arena ri ≠ "section" →
      DocumentParser.parseStep cfg nm st b =
        { st with arena := appendContentNL st.arena ri (String.mk (trimCh b.content.data)) }) := by
  constructor
  · intro joIdx ri hjo5 hh1 hh2 hfr hty
    rw [parseStep_prose_normal hin hne hgs]
    unfold DocumentParser.normalStep
    simp only [hm, hin, Bool.false_and, Bool.false_eq_true, if_false]
    have hb : (decide (slotGet st.stack LEVEL_HANG = none) ||
        decide (slotGet st.stack LEVEL_HANG = some none)) = false := by
      simp [hh1, hh2]
    simp only [hjo5, hb, Bool.false_eq_true, if_false, hfr, if_pos hty, proseArticleAppend]
    rw [hin]
  · intro ri hjo hfr hty
    rw [parseStep_prose_normal hin hne hgs]
    unfold DocumentParser.normalStep
    simp only [hm, hin, Bool.false_and, Bool.false_eq_true, if_false]
    rcases hjo with h5 | h5
    · simp only [h5, hfr, if_pos hty]
    · simp only [h5, hfr, if_pos hty]

/-- C5 (witness): with the Article scenario (Article plus its open implicit
Paragraph active) the prose citation is appended with its references
attached; with the Chapter-only scenario the same prose is appended without
extracting its citation. -/
theorem C5_witness :
    (DocumentParser.parseStep emptyCfg "본문" c4State c5Block =
      proseArticleAppend emptyCfg c4State 2 (String.mk (trimCh c5Block.content.data))) ∧
    (DocumentParser.parseStep emptyCfg "본문" c5State c5Block =
      { c5State with arena := appendContentNL c5State.arena 1 (String.mk (trimCh c5Block.content.data)) }) :=
  ⟨(C5_prose_refs_only_with_article emptyCfg "본문" c4State c5Block (by decide) (by decide)
      (by decide) (by decide)).1 1 2 (by decide) (by decide) (by decide) (by decide) (by decide),
   (C5_prose_refs_only_with_article emptyCfg "본문" c5State c5Block (by decide) (by decide)
      (by decide) (by decide)).2 1 (Or.inl (by decide)) (by decide) (by decide)⟩

/-- C6: in every tree produced by a full parse, every node other than a
Special node has level ≥ its parent's level + 1 (every parent-child edge of
every section arena satisfies the rule, covering all builder paths including
auto-generated implicit Paragraphs), the Document root has level −1, and each
Section sits at level 0 = (−1) + 1 below it. -/
theorem C6_level_invariant (laws : List String) (secs : List (String × List Block)) :
    (DocumentParser.parse laws secs).rootLevel = -1 ∧
    ∀ ps ∈ (DocumentParser.parse laws secs).sections,
      EdgeOk ps.arena ∧
      ∃ n0, ps.arena[0]? = some n0 ∧
        n0.level = (DocumentParser.parse laws secs).rootLevel + 1 := by
  refine ⟨rfl, ?_⟩
  intro ps hps
  rcases List.mem_map.mp hps with ⟨sec, hsec, rfl⟩
  have h := parseSection_ok (DocumentParser.mkExtractorCfg laws) sec.1 sec.2
  refine ⟨h.1, ?_⟩
  rcases h.2.2.1 with ⟨n0, hn0, hl0⟩
  refine ⟨n0, hn0, ?_⟩
  rw [hl0]
  show (0 : Int) = -1 + 1
  decide

/-- C7: deserializing the serialized form of any tree of `HierarchyNode`s with
attached `Reference`s reconstructs an identical tree — all node fields, the
order and content of children, and every reference field are equal to the
original. -/
theorem C7_roundtrip (n : HierarchyNode) : dictToNode (HierarchyNode.toDict n) = n :=
  dictToNode_toDict_aux n

/-- C8: with Items `1.`, `2.`, (a nested Subitem `가.`), then `4.` (skipping 3)
inside one Paragraph, parsing does not fail: the `4.` fragment creates an Item
node attached under the Paragraph via the non-sequential branch, which keeps
the Paragraph, performs no reset — the stack entry below Item (the Subitem at
key 8) survives and the Subitem last-number counter stays 1. -/
theorem C8_nonsequential_items :
    (c8State.arena[6]?).map (fun n => (n.type, n.number, n.marker)) =
        some ("호", some 4, "4.") ∧
    (c8State.arena[2]?).map (fun n => (n.type, n.children)) = some ("항", [3, 4, 6]) ∧
    slotGet c8State.stack LEVEL_MOK = some (some 5) ∧
    (c8State.arena[5]?).map (fun n => (n.type, n.number)) = some ("목", some 1) ∧
    lastGet c8State.lastNumbers LEVEL_MOK = 1 ∧
    lastGet c8State.lastNumbers LEVEL_HO = 4 ∧
    slotGet c8State.stack LEVEL_HANG = some (some 2) := by
  decide

/-- C9: a prose fragment (no structural match, outside special mode) arriving
while no Article is active and the most recent active node is the section
root is silently discarded: the parse step returns the state unchanged — no
node is created or modified and no reference is extracted or recorded. -/
theorem C9_prose_at_root_discarded (cfg : ExtCfg) (nm : String) (st : PState) (b : Block)
    (hin : st.inSpecial = false)
    (hgs : checkGlobalSpecial (trimCh b.content.data) = none)
    (hm : PatternMatcher.matchText (String.mk (trimCh b.content.data)) = none)
    (hjo : slotGet st.stack LEVEL_JO = none ∨ slotGet st.stack LEVEL_JO = some none)
    (hrec : ∀ ri, findMostRecentIdx st.stack = some ri → nodeTypeAt st.arena ri = "section") :
    DocumentParser.parseStep cfg nm st b = st := by
  by_cases hne : trimCh b.content.data = []
  · have hemp : (trimCh b.content.data).isEmpty = true := by simpa using hne
    unfold DocumentParser.parseStep
    simp [hemp]
  · rw [parseStep_prose_normal hin hne hgs]
    unfold DocumentParser.normalStep
    simp only [hm, hin, Bool.false_and, Bool.false_eq_true, if_false]
    cases hfr : findMostRecentIdx st.stack with
    | none =>
      rcases hjo with h5 | h5
      · simp only [h5, hfr]
      · simp only [h5, hfr]
    | some ri =>
      have hns : ¬ nodeTypeAt st.arena ri ≠ "section" := fun hcon => hcon (hrec ri hfr)
      rcases hjo with h5 | h5
      · simp only [h5, hfr, if_neg hns]
      · simp only [h5, hfr, if_neg hns]

/-- C9 (witness): a prose fragment in a freshly initialized section leaves the
state exactly unchanged. -/
theorem C9_witness :
    DocumentParser.parseStep emptyCfg "본문" c9State c9Block = c9State :=
  C9_prose_at_root_discarded emptyCfg "본문" c9State c9Block (by decide) (by decide)
    (by decide) (Or.inl (by decide))
    (fun ri h => by
      rw [show findMostRecentIdx c9State.stack = some 0 from by decide] at h
      injection h with h'
      subst h'
      decide)

/-- C10: `DocumentParser` initializes `current_doc_name` to the empty string
and never assigns it again (its only occurrences in the source are the
initialization and the read when constructing the extractor), so the
`ReferenceExtractor` used by a full parse always has an empty document name,
and the external-match discard condition of `extract` collapses to the
`"약관"`-substring rule alone. -/
theorem C10_empty_docname (laws : List String) (lawName : List Char) :
    (DocumentParser.mkExtractorCfg laws).docName = "" ∧
    (((!(DocumentParser.mkExtractorCfg laws).docName.data.isEmpty) &&
        containsSub lawName (DocumentParser.mkExtractorCfg laws).docName.data)
      || containsSub lawName ['약', '관']) = containsSub lawName ['약', '관'] := by
  refine ⟨rfl, ?_⟩
  show ((!("" : String).data.isEmpty && containsSub lawName ("" : String).data)
    || containsSub lawName ['약', '관']) = containsSub lawName ['약', '관']
  simp

end HierarchyParser
